import Mathlib

/-!
# XrdCl::ZipArchive: a shallow embedding of `src/XrdCl/XrdClZipArchive.cc`

The archive session is a record of the fields of `ZipArchive`.  Every public
operation is a function from the session (and its arguments) to the new
session, the status it returns synchronously, and the list of calls it makes on
its collaborators (remote file, inflate cache, user handler), in program order.
The continuation of an asynchronous pipeline is a second function that takes
the status and response of the remote operation.

Machine integers are natural numbers; 64-bit and 32-bit arithmetic is reduced
modulo `2^64` and `2^32` where the source computes in `uint64_t`/`uint32_t`.
Dereferencing a null `unique_ptr` or indexing a vector out of range has no
defined result: the operation returns `none`.
-/

namespace XrdCl

/-! ## Machine arithmetic -/

abbrev Byte := Nat

/-- Sum of two `uint64_t` values. -/
def add64 (a b : Nat) : Nat := (a + b) % 2 ^ 64

/-- Difference of two `uint64_t` values (wraps around below zero). -/
def sub64 (a b : Nat) : Nat := (a % 2 ^ 64 + (2 ^ 64 - b % 2 ^ 64)) % 2 ^ 64

/-- Conversion to `uint32_t`. -/
def cast32 (a : Nat) : Nat := a % 2 ^ 32

/-- Sum of two `uint32_t` values. -/
def add32 (a b : Nat) : Nat := (a + b) % 2 ^ 32

/-! ## Status values -/

/-- Status codes of `XRootDStatus` used by the archive. -/
inductive Code
  | none
  | suDone
  | suContinue
  | suPartial
  | errInvalidOp
  | errNotFound
  | errNotSupported
  | errDataError
  | errOperationInterrupted
  | errOther (n : Nat)
  deriving DecidableEq, Repr

/-- An `XRootDStatus`: `ok` is `IsOK()`, `code` its code. -/
structure XRootDStatus where
  ok : Bool
  code : Code
  deriving DecidableEq, Repr

/-- The default-constructed status `XRootDStatus()`. -/
def stOK : XRootDStatus := ⟨true, Code.none⟩

/-- The status `XRootDStatus( stError, code )`. -/
def stError (c : Code) : XRootDStatus := ⟨false, c⟩

/-! ## ZIP records

The record classes live in the `XrdZip` headers; the fields below are the ones
`XrdClZipArchive.cc` reads or writes. -/

/-- The flag `OpenFlags::New` (the protocol constant `kXR_new`). -/
def OpenFlags.New : Nat := 8

/-- The flag value `OpenFlags::None`. -/
def OpenFlags.None : Nat := 0

/-- The flag `OpenFlags::Read`. -/
def OpenFlags.Read : Nat := 16

/-- The flag `OpenFlags::Update`. -/
def OpenFlags.Update : Nat := 32

/-- The zlib constant `Z_DEFLATED`. -/
def Z_DEFLATED : Nat := 8

/-- Central directory file header. `lfhOffset` is what `CDFH::GetOffset` returns. -/
structure CDFH where
  filename : String
  compressionMethod : Nat
  compressedSize : Nat
  uncompressedSize : Nat
  lfhOffset : Nat
  cdfhSize : Nat
  deriving DecidableEq, Repr

/-- The accessor `CDFH::GetOffset`: offset of the member's local file header. -/
def CDFH.GetOffset (c : CDFH) : Nat := c.lfhOffset

/-- Local file header. -/
structure LFH where
  filename : String
  compressionMethod : Nat
  crc32 : Nat
  compressedSize : Nat
  uncompressedSize : Nat
  timestmp : Nat
  lfhSize : Nat
  deriving DecidableEq, Repr

/-- End of central directory record. -/
structure EOCD where
  nbCdRec : Nat
  cdSize : Nat
  cdOffset : Nat
  commentLength : Nat
  eocdSize : Nat
  useZip64 : Bool
  deriving DecidableEq, Repr

/-- ZIP64 end of central directory record. -/
structure ZIP64_EOCD where
  nbCdRec : Nat
  cdSize : Nat
  cdOffset : Nat
  zip64EocdTotalSize : Nat
  deriving DecidableEq, Repr

/-- ZIP64 end of central directory locator. -/
structure ZIP64_EOCDL where
  zip64EocdOffset : Nat
  deriving DecidableEq, Repr

/-- The constant `EOCD::eocdBaseSize`. -/
def eocdBaseSize : Nat := 22

/-- The constant `EOCD::maxCommentLength`. -/
def maxCommentLength : Nat := 65535

/-- The constant `ZIP64_EOCDL::zip64EocdlSize`. -/
def zip64EocdlSize : Nat := 20

/-- The signature `ZIP64_EOCDL::zip64EocdlSign`. -/
def zip64EocdlSign : Nat := 0x07064b50

/-- The signature `ZIP64_EOCD::zip64EocdSign`. -/
def zip64EocdSign : Nat := 0x06064b50

/-- The constant `LFH::lfhBaseSize`. -/
def lfhBaseSize : Nat := 30

/-! ## Session state -/

/-- The stages of the open machine (`ZipArchive::OpenStages`). -/
inductive OpenStages
  | None
  | HaveEocdBlk
  | HaveZip64EocdlBlk
  | HaveZip64EocdBlk
  | HaveCdRecords
  | Done
  | Error
  deriving DecidableEq, Repr

/-- Lookup in a `std::unordered_map` kept as an association list. -/
def mapFind {β : Type} (m : List (String × β)) (k : String) : Option β :=
  match m with
  | [] => none
  | (k', v) :: rest => if k' = k then some v else mapFind rest k

/-- The assignment `m[k] = v` on a `std::unordered_map`. -/
def mapSet {β : Type} (m : List (String × β)) (k : String) (v : β) : List (String × β) :=
  match m with
  | [] => [(k, v)]
  | (k', v') :: rest => if k' = k then (k, v) :: rest else (k', v') :: mapSet rest k v

/-- The fields of `ZipArchive`; `σ` is the state of one `InflCache`. -/
structure Session (σ : Type) where
  archsize : Nat
  cdexists : Bool
  updated : Bool
  cdoff : Nat
  openstage : OpenStages
  flags : Nat
  eocd : Option EOCD
  zip64eocd : Option ZIP64_EOCD
  cdvec : List CDFH
  cdmap : List (String × Nat)
  buffer : Option (List Byte)
  openfn : String
  lfh : Option LFH
  inflcache : List (String × σ)

/-- The session built by the constructor `ZipArchive::ZipArchive()`. -/
def Session.init (σ : Type) : Session σ :=
  { archsize := 0, cdexists := false, updated := false, cdoff := 0,
    openstage := OpenStages.None, flags := OpenFlags.None, eocd := none,
    zip64eocd := none, cdvec := [], cdmap := [], buffer := none, openfn := "",
    lfh := none, inflcache := [] }

/-- Modelled from the spec: `Clear()`, declared in the absent header
`XrdClZipArchive.hh`; "`CloseArchive` resets the session to the initial state on
success". -/
def Clear {σ : Type} (_s : Session σ) : Session σ := Session.init σ

/-- The operations of `XrdZip::InflCache` (absent header), taken as a parameter.
`Input c buf src len raw` is `Input( buf + src, len, raw )`, `Output c len off`
is `Output( usrbuff, len, off )`, `Read c` returns the status, the value stored
in `bytesRead` and the new cache state. -/
structure InflCache (σ : Type) where
  init : σ
  Input : σ → List Byte → Nat → Nat → Nat → XRootDStatus × σ
  Output : σ → Nat → Nat → XRootDStatus × σ
  Read : σ → XRootDStatus × Nat × σ
  NextChunkOffset : σ → Nat

/-! ## Calls made on the collaborators -/

/-- The response object `ChunkInfo( offset, length, buffer )`. -/
structure ChunkInfo where
  offset : Nat
  length : Nat
  deriving DecidableEq, Repr

/-- One call made by an operation, in program order. -/
inductive Event
  | cacheInput (src len rawOffset : Nat)
  | cacheOutput (len off : Nat)
  | cacheRead
  | memcpy (src len : Nat)
  | handler (st : XRootDStatus) (chunk : Option ChunkInfo)
  | remoteRead (offset size : Nat)
  | remoteWrite (offset size : Nat) (data : List Byte)
  | remoteClose
  | cdParse (buff : Int) (bufferSize nbCdRecords : Nat)
  deriving DecidableEq, Repr

/-- What an operation leaves behind when it returns: the session, the status it
returns, and the calls it made (a `remoteRead`, `remoteWrite` or `remoteClose`
is a stage of the pipeline it submitted). -/
structure Result (σ : Type) where
  session : Session σ
  ret : XRootDStatus
  events : List Event

/-- The call of the user handler, made only when the handler is not null. -/
def notify (h : Bool) (st : XRootDStatus) (chunk : Option ChunkInfo) : List Event :=
  if h then [Event.handler st chunk] else []

/-- Modelled from the spec: the remote file client (external); a read of `len`
bytes at `off` returns the bytes of the file in `[off, off+len)`. -/
def remoteBytes (file : List Byte) (off len : Nat) : List Byte :=
  (file.drop off).take len

/-- The bytes `memcpy( usrbuff, buffer + src, len )` stores in the user buffer;
`none` when the source range leaves the buffer. -/
def memcpyBytes (buffer : List Byte) (src len : Nat) : Option (List Byte) :=
  if src + len ≤ buffer.length then some ((buffer.drop src).take len) else none

/-! ## ZipArchive::Read -/

/-- Line 345: `zip64eocd ? zip64eocd->cdOffset : eocd->cdOffset`; `none` when
both pointers are null. -/
def cdOffsetOf {σ : Type} (s : Session σ) : Option Nat :=
  match s.zip64eocd with
  | some z => some z.cdOffset
  | none =>
    match s.eocd with
    | some e => some e.cdOffset
    | none => none

/-- Lines 346-347: the offset of the record that follows member `idx`. -/
def nextRecordOffset {σ : Type} (s : Session σ) (idx cdOffset : Nat) : Nat :=
  if h : idx + 1 < s.cdvec.length then CDFH.GetOffset (s.cdvec.get ⟨idx + 1, h⟩) else cdOffset

/-- Lines 351-353: the size after the clamp by the uncompressed size. -/
def clampSize (cdfh : CDFH) (relativeOffset size : Nat) : Nat :=
  let sizeTillEnd :=
    if relativeOffset > cdfh.uncompressedSize then 0 else cdfh.uncompressedSize - relativeOffset
  if size > sizeTillEnd then cast32 sizeTillEnd else size

/-- Lines 393-403: raw offset and size of the next compressed chunk. -/
def nextChunk (next relativeOffset size filesize : Nat) : Nat × Nat :=
  let rawOffset := if next = 0 then relativeOffset else next
  let chunkSize := if add64 rawOffset size > filesize then cast32 (sub64 filesize rawOffset) else size
  (rawOffset, chunkSize)

/-- Lines 356-445: the deflate branch of `Read`, after the clamp. -/
def ReadDeflate {σ : Type} (ops : InflCache σ) (s : Session σ) (filesize fileoff offset : Nat)
    (relativeOffset size : Nat) (usrHandler : Bool) : Result σ :=
  let empty := (mapFind s.inflcache s.openfn).isNone
  let cache0 := (mapFind s.inflcache s.openfn).getD ops.init
  let seed := empty && s.buffer.isSome
  let inp := ops.Input cache0 (s.buffer.getD []) offset (sub64 filesize fileoff) relativeOffset
  let ev1 := if seed then [Event.cacheInput offset (sub64 filesize fileoff) relativeOffset] else []
  let cache1 := if seed then inp.2 else cache0
  if seed && !inp.1.ok then
    { session := { s with inflcache := mapSet s.inflcache s.openfn cache1 },
      ret := inp.1, events := ev1 }
  else
    let out := ops.Output cache1 size relativeOffset
    let ev2 := ev1 ++ [Event.cacheOutput size relativeOffset]
    let fromCache := !empty || s.buffer.isSome
    let rd := ops.Read out.2
    let cache3 := if fromCache then rd.2.2 else out.2
    let ev3 := if fromCache then ev2 ++ [Event.cacheRead] else ev2
    if fromCache && !rd.1.ok then
      { session := { s with inflcache := mapSet s.inflcache s.openfn cache3 },
        ret := rd.1, events := ev3 }
    else if fromCache && rd.1.code = Code.suDone then
      { session := { s with inflcache := mapSet s.inflcache s.openfn cache3 },
        ret := stOK,
        events := ev3 ++ notify usrHandler stOK (some ⟨relativeOffset, size⟩) }
    else
      let nc := nextChunk (ops.NextChunkOffset cache3) relativeOffset size filesize
      { session := { s with inflcache := mapSet s.inflcache s.openfn cache3,
                            buffer := some (List.replicate nc.2 0) },
        ret := stOK,
        events := ev3 ++ [Event.remoteRead (add64 fileoff nc.1) nc.2] }

/-- Lines 447-474: the stored branch of `Read`, after the clamp. -/
def ReadStored {σ : Type} (s : Session σ) (offset relativeOffset size : Nat)
    (usrHandler : Bool) : Result σ :=
  if s.buffer.isSome ∨ size = 0 then
    { session := s, ret := stOK,
      events := (if size ≠ 0 then [Event.memcpy offset size] else []) ++
                notify usrHandler stOK (some ⟨relativeOffset, size⟩) }
  else
    { session := s, ret := stOK, events := [Event.remoteRead offset size] }

/-- The operation `ZipArchive::Read( relativeOffset, size, usrbuff, usrHandler, timeout )`. -/
def Read {σ : Type} (ops : InflCache σ) (s : Session σ) (relativeOffset size : Nat)
    (usrHandler : Bool) : Option (Result σ) :=
  if s.openstage ≠ OpenStages.Done ∨ s.openfn = "" then
    some { session := s, ret := stError Code.errInvalidOp, events := [] }
  else
    match mapFind s.cdmap s.openfn with
    | none => some { session := s, ret := stError Code.errNotFound, events := [] }
    | some idx =>
      match s.cdvec[idx]? with
      | none => none
      | some cdfh =>
        if cdfh.compressionMethod ≠ 0 ∧ cdfh.compressionMethod ≠ Z_DEFLATED then
          some { session := s, ret := stError Code.errNotSupported, events := [] }
        else
          match cdOffsetOf s with
          | none => none
          | some cdOffset =>
            let filesize := cdfh.compressedSize
            let fileoff := sub64 (nextRecordOffset s idx cdOffset) filesize
            let offset := add64 fileoff relativeOffset
            let size := clampSize cdfh relativeOffset size
            if cdfh.compressionMethod = Z_DEFLATED then
              some (ReadDeflate ops s filesize fileoff offset relativeOffset size usrHandler)
            else
              some (ReadStored s offset relativeOffset size usrHandler)

/-- Lines 462-472: the continuation of the remote read of a stored member; the
response is `ChunkInfo( relativeOffset, chunk.length, chunk.buffer )`. -/
def ReadStoredDone (relativeOffset : Nat) (usrHandler : Bool) (st : XRootDStatus)
    (chunkLength : Nat) : List Event :=
  notify usrHandler st (if st.ok then some ⟨relativeOffset, chunkLength⟩ else none)

/-- Lines 407-442: the continuation of the remote read of a compressed chunk of
the active member; `data` is the chunk that was read. -/
def ReadDeflateDone {σ : Type} (ops : InflCache σ) (s : Session σ)
    (relativeOffset size rawOffset : Nat) (usrHandler : Bool) (st : XRootDStatus)
    (data : List Byte) : Result σ :=
  if !st.ok then
    { session := s, ret := st, events := notify usrHandler st none }
  else
    let cache0 := (mapFind s.inflcache s.openfn).getD ops.init
    let inp := ops.Input cache0 data 0 data.length rawOffset
    let ev1 := [Event.cacheInput 0 data.length rawOffset]
    if !inp.1.ok then
      { session := { s with inflcache := mapSet s.inflcache s.openfn inp.2, buffer := none },
        ret := inp.1, events := ev1 ++ notify usrHandler inp.1 none }
    else
      let rd := ops.Read inp.2
      let ev2 := ev1 ++ [Event.cacheRead]
      if !rd.1.ok then
        { session := { s with inflcache := mapSet s.inflcache s.openfn rd.2.2, buffer := none },
          ret := rd.1, events := ev2 ++ notify usrHandler rd.1 none }
      else
        { session := { s with inflcache := mapSet s.inflcache s.openfn rd.2.2, buffer := none },
          ret := stOK,
          events := ev2 ++ notify usrHandler stOK (some ⟨relativeOffset, size⟩) }

/-! ## Record codecs

The byte-level encoders and decoders of the `XrdZip` headers are not part of
this file's source; they are a parameter.  A pointer into the buffer a chunk
was read into is the index of the byte it points at (an integer, as the
source moves pointers backwards). -/

/-- The encoders, decoders and size rules of the `XrdZip` record classes. -/
structure Codec where
  serLFH : LFH → List Byte
  serCDFH : CDFH → List Byte
  serEOCD : EOCD → List Byte
  serZIP64_EOCD : ZIP64_EOCD → List Byte
  serZIP64_EOCDL : ZIP64_EOCDL → List Byte
  lfhExtraLength : Nat → Nat
  cdfhExtraLength : LFH → Nat → Nat
  Find : List Byte → Nat → Option Nat
  parseEOCD : List Byte → Int → EOCD
  to32 : List Byte → Int → Nat
  parseZIP64_EOCDL : List Byte → Int → ZIP64_EOCDL
  parseZIP64_EOCD : List Byte → Int → ZIP64_EOCD
  Parse : List Byte → Int → Nat → Nat → Option (List CDFH × List (String × Nat))

/-- The constant `CDFH::cdfhBaseSize`. -/
def cdfhBaseSize : Nat := 46

/-- The constant `ZIP64_EOCD::zip64EocdBaseSize`, the size of a record without extensible data. -/
def zip64EocdBaseSize : Nat := 56

/-- Modelled from the spec: the constructor `LFH( fn, crc32, size, time )` of the
absent header `XrdZipLFH.hh`; "an LFH is constructed from `(name, crc32, size,
now())`", for a stored member, its size the base size plus the name and the
extra field. -/
def LFH.new (K : Codec) (fn : String) (crc32 size time : Nat) : LFH :=
  { filename := fn, compressionMethod := 0, crc32 := crc32, compressedSize := size,
    uncompressedSize := size, timestmp := time,
    lfhSize := lfhBaseSize + fn.utf8ByteSize + K.lfhExtraLength size }

/-- Modelled from the spec: the constructor `CDFH( lfh, mode, lfhOffset )` of the
absent header `XrdZipCDFH.hh`; "a CDFH is appended referring to that LFH". -/
def CDFH.ofLFH (K : Codec) (lfh : LFH) (_mode : Nat) (lfhOffset : Nat) : CDFH :=
  { filename := lfh.filename, compressionMethod := lfh.compressionMethod,
    compressedSize := lfh.compressedSize, uncompressedSize := lfh.uncompressedSize,
    lfhOffset := lfhOffset,
    cdfhSize := cdfhBaseSize + lfh.filename.utf8ByteSize + K.cdfhExtraLength lfh lfhOffset }

/-- Modelled from the spec: `CDFH::CalcSize( cdvec )` of the absent header;
"`cdsize = Σ CDFH serialized size over cdvec`". -/
def CDFH.CalcSize (cdvec : List CDFH) : Nat := (cdvec.map CDFH.cdfhSize).sum

/-- Modelled from the spec: `CDFH::Serialize( cdvec, buffer )` of the absent
header; "all CDFHs", appended in directory order. -/
def CDFH.SerializeAll (K : Codec) (cdvec : List CDFH) : List Byte :=
  (cdvec.map K.serCDFH).flatten

/-- Modelled from the spec: the constructor `EOCD( cdoff, cdcnt, cdsize )` of the
absent header `XrdZipEOCD.hh`; "ZIP64 is used whenever any of `cdoff`, `cdsize`,
`nbCdRec` exceeds its 32-bit field", a field that does not fit holding the
all-ones value; no comment. -/
def EOCD.new (cdoff cdcnt cdsize : Nat) : EOCD :=
  { nbCdRec := if cdcnt ≥ 0xFFFF then 0xFFFF else cdcnt,
    cdSize := cdsize,
    cdOffset := if cdoff ≥ 0xFFFFFFFF then 0xFFFFFFFF else cdoff,
    commentLength := 0,
    eocdSize := eocdBaseSize,
    useZip64 := decide (cdcnt ≥ 0xFFFF ∨ cdoff ≥ 0xFFFFFFFF) }

/-- Modelled from the spec: the constructor `ZIP64_EOCD( cdoff, cdcnt, cdsize )`
of the absent header `XrdZipZIP64EOCD.hh`. -/
def ZIP64_EOCD.new (cdoff cdcnt cdsize : Nat) : ZIP64_EOCD :=
  { nbCdRec := cdcnt, cdSize := cdsize, cdOffset := cdoff,
    zip64EocdTotalSize := zip64EocdBaseSize }

/-- Modelled from the spec: the constructor `ZIP64_EOCDL( eocd, zip64eocd )` of
the absent header `XrdZipZIP64EOCDL.hh`; the ZIP64 EOCD follows the central
directory. -/
def ZIP64_EOCDL.new (_eocd : EOCD) (z : ZIP64_EOCD) : ZIP64_EOCDL :=
  { zip64EocdOffset := z.cdOffset + z.cdSize }

/-! ## ZipArchive::OpenFile -/

/-- The mode `S_IRUSR | S_IWUSR | S_IRGRP | S_IROTH`. -/
def newFileMode : Nat := 0o644

/-- The operation `ZipArchive::OpenFile( fn, flags, size, crc32, handler, timeout )`; `time` is
the value of `time( 0 )`. -/
def OpenFile {σ : Type} (K : Codec) (s : Session σ) (fn : String) (flags size crc32 : Nat)
    (time : Nat) (handler : Bool) : Result σ :=
  if s.openfn ≠ "" ∨ s.openstage ≠ OpenStages.Done then
    { session := s, ret := stError Code.errInvalidOp, events := [] }
  else
    match mapFind s.cdmap fn with
    | none =>
      if flags ||| OpenFlags.New ≠ 0 then
        let lfh := LFH.new K fn crc32 size time
        { session := { s with flags := flags, openfn := fn, lfh := some lfh, cdexists := false },
          ret := stOK,
          events := [Event.remoteWrite s.cdoff (cast32 lfh.lfhSize) (K.serLFH lfh)] }
      else
        { session := { s with flags := flags }, ret := stError Code.errNotFound, events := [] }
    | some _ =>
      { session := { s with flags := flags, openfn := fn }, ret := stOK,
        events := notify handler stOK none }

/-- Lines 236-248: the continuation of the LFH write of `OpenFile`; `fn`,
`wrtoff` and `wrtlen` are the values captured when the write was issued. -/
def OpenFileDone {σ : Type} (K : Codec) (s : Session σ) (fn : String) (wrtoff wrtlen : Nat)
    (handler : Bool) (st : XRootDStatus) : Option (Result σ) :=
  if st.ok then
    match s.lfh with
    | none => none
    | some lfh =>
      let cdvec := s.cdvec ++ [CDFH.ofLFH K lfh newFileMode wrtoff]
      some { session := { s with archsize := add64 s.archsize wrtlen,
                                 cdoff := add64 s.cdoff wrtlen,
                                 cdvec := cdvec,
                                 cdmap := mapSet s.cdmap fn (cdvec.length - 1) },
             ret := st, events := notify handler st none }
  else
    some { session := s, ret := st, events := notify handler st none }

/-- The operation `OpenFile` for an absent name, run to the end of its pipeline: the LFH write
is issued and answered with `st`. -/
def OpenFileNew {σ : Type} (K : Codec) (s : Session σ) (fn : String) (flags size crc32 : Nat)
    (time : Nat) (handler : Bool) (st : XRootDStatus) : Option (Result σ) :=
  let r := OpenFile K s fn flags size crc32 time handler
  match r.events with
  | [Event.remoteWrite wrtoff wrtlen _] =>
    (OpenFileDone K r.session fn wrtoff wrtlen handler st).map
      fun r' => { r' with events := r.events ++ r'.events }
  | _ => some r

/-! ## ZipArchive::Write -/

/-- The operation `ZipArchive::Write( size, buffer, handler, timeout )`; `data` is the content
of the caller's buffer. -/
def Write {σ : Type} (s : Session σ) (size : Nat) (data : List Byte) : Result σ :=
  if s.openstage ≠ OpenStages.Done ∨ s.openfn = "" then
    { session := s, ret := stError Code.errInvalidOp, events := [] }
  else
    { session := s, ret := stOK, events := [Event.remoteWrite s.cdoff size data] }

/-- Lines 518-528: the continuation of the remote write of `Write`. -/
def WriteDone {σ : Type} (s : Session σ) (size : Nat) (handler : Bool) (st : XRootDStatus) :
    Result σ :=
  if st.ok then
    { session := { s with cdoff := add64 s.cdoff size, archsize := add64 s.archsize size,
                          updated := true },
      ret := st, events := notify handler st none }
  else
    { session := s, ret := st, events := notify handler st none }

/-- A `Write` call run to the end of its pipeline, the remote write answered
with `st`. -/
def WriteRun {σ : Type} (s : Session σ) (size : Nat) (data : List Byte) (handler : Bool)
    (st : XRootDStatus) : Result σ :=
  let r := Write s size data
  match r.events with
  | [] => r
  | _ =>
    let r' := WriteDone r.session size handler st
    { r' with ret := r.ret, events := r.events ++ r'.events }

/-- A sequence of `Write` calls, each `(size, data)`, whose remote writes all
succeed; returns the final session and all calls made, in order. -/
def WriteAll {σ : Type} (s : Session σ) (handler : Bool) :
    List (Nat × List Byte) → Session σ × List Event
  | [] => (s, [])
  | (size, data) :: rest =>
    let r := WriteRun s size data handler stOK
    let t := WriteAll r.session handler rest
    (t.1, r.events ++ t.2)

/-! ## ZipArchive::CloseArchive -/

/-- Lines 264-280: the 32-bit length `wrtsize` passed to the remote write. -/
def closeWrtsize (eocd : EOCD) (z : ZIP64_EOCD) : Nat :=
  let wrtsize := add32 (add32 0 eocd.eocdSize) eocd.cdSize
  if eocd.useZip64 then
    add32 (add32 wrtsize z.zip64EocdTotalSize) zip64EocdlSize
  else wrtsize

/-- Lines 283-291: the byte image serialized into `wrtbuff`. -/
def closeImage (K : Codec) (cdvec : List CDFH) (cdoff cdsize : Nat) (eocd : EOCD) : List Byte :=
  let z := ZIP64_EOCD.new cdoff cdvec.length cdsize
  CDFH.SerializeAll K cdvec ++
  (if eocd.useZip64 then K.serZIP64_EOCD z else []) ++
  (if eocd.useZip64 then K.serZIP64_EOCDL (ZIP64_EOCDL.new eocd z) else []) ++
  K.serEOCD eocd

/-- The operation `ZipArchive::CloseArchive( handler, timeout )`: the pipeline it submits. -/
def CloseArchive {σ : Type} (K : Codec) (s : Session σ) : Result σ :=
  if s.updated then
    let cdsize := cast32 (CDFH.CalcSize s.cdvec)
    let eocd := EOCD.new s.cdoff s.cdvec.length cdsize
    { session := { s with eocd := some eocd }, ret := stOK,
      events := [Event.remoteWrite s.cdoff
                   (closeWrtsize eocd (ZIP64_EOCD.new s.cdoff s.cdvec.length cdsize))
                   (closeImage K s.cdvec s.cdoff cdsize eocd),
                 Event.remoteClose] }
  else
    { session := s, ret := stOK, events := [Event.remoteClose] }

/-- Lines 295-301 and 307-312: the continuation of the remote close. -/
def CloseArchiveDone {σ : Type} (s : Session σ) (handler : Bool) (st : XRootDStatus) :
    Result σ :=
  { session := if st.ok then Clear s else { s with openstage := OpenStages.Error },
    ret := st, events := notify handler st none }

/-! ## The remote file -/

/-- Modelled from the spec: the remote file client (external); a write of `data`
at `off` replaces the bytes from `off` on, padding a gap with zeros. -/
def writeAt (file : List Byte) (off : Nat) (data : List Byte) : List Byte :=
  file.take off ++ List.replicate (off - file.length) 0 ++ data ++ file.drop (off + data.length)

/-- The effect of one call on the content of the remote file. -/
def applyEvent (file : List Byte) : Event → List Byte
  | Event.remoteWrite off size data => writeAt file off (data.take size)
  | _ => file

/-- The content of the remote file after a list of calls. -/
def applyEvents (file : List Byte) (evs : List Event) : List Byte :=
  evs.foldl applyEvent file

/-- The remote writes among a list of calls. -/
def writesOf : List Event → List (Nat × Nat × List Byte)
  | [] => []
  | Event.remoteWrite off size data :: rest => (off, size, data) :: writesOf rest
  | _ :: rest => writesOf rest

/-- The remote reads among a list of calls. -/
def readsOf : List Event → List (Nat × Nat)
  | [] => []
  | Event.remoteRead off size :: rest => (off, size) :: readsOf rest
  | _ :: rest => readsOf rest

/-- The number of remote close requests among a list of calls. -/
def closesOf : List Event → Nat
  | [] => 0
  | Event.remoteClose :: rest => closesOf rest + 1
  | _ :: rest => closesOf rest

/-! ## ZipArchive::OpenArchive -/

/-- The forwarded arguments `rdoff`, `rdsize` of the read stage. -/
structure ReadArgs where
  rdoff : Nat
  rdsize : Nat
  deriving DecidableEq, Repr

/-- The response of a remote read: `chunk.offset` and the bytes read
(`chunk.length` is their number). -/
structure Chunk where
  offset : Nat
  data : List Byte
  deriving DecidableEq, Repr

/-- How a continuation leaves the pipeline: it returns, or it throws through
`Pipeline::Repeat()` or `Pipeline::Stop( status )`. -/
inductive Flow
  | Return
  | Repeat
  | Stop (st : XRootDStatus)
  deriving DecidableEq, Repr

/-- The outcome of one run of a continuation of the open pipeline. -/
structure OpenStep (σ : Type) where
  session : Session σ
  args : ReadArgs
  events : List Event
  flow : Flow

/-- Modelled from the spec: `interrupted( status )` of the absent pipeline
headers; "the pipeline was interrupted (status class = interrupted)". -/
def interrupted (st : XRootDStatus) : Bool :=
  !st.ok && decide (st.code = Code.errOperationInterrupted)

/-- Lines 40-41: the cap `maxrdsz` of the tail read. -/
def maxrdsz : Nat := cast32 (maxCommentLength + eocdBaseSize + zip64EocdlSize)

/-- Lines 45-64: the continuation of the remote open; `size` is
`info.GetSize()`. -/
def OpenArchiveOpened {σ : Type} (s : Session σ) (st : XRootDStatus) (size : Nat) :
    OpenStep σ :=
  if !st.ok then
    { session := s, args := ⟨0, 0⟩, events := [Event.handler st none], flow := Flow.Return }
  else if size = 0 then
    { session := { s with archsize := size, cdexists := false, openstage := OpenStages.Done },
      args := ⟨0, 0⟩, events := [Event.handler stOK none], flow := Flow.Stop stOK }
  else
    let rdsize := if size ≤ maxrdsz then cast32 size else maxrdsz
    { session := { s with archsize := size, buffer := some (List.replicate rdsize 0),
                          openstage := OpenStages.HaveEocdBlk },
      args := ⟨sub64 size rdsize, rdsize⟩, events := [], flow := Flow.Return }

/-- Lines 170-187: `case HaveCdRecords`. -/
def stageHaveCdRecords {σ : Type} (K : Codec) (s : Session σ) (a : ReadArgs)
    (st : XRootDStatus) (chunk : Chunk) (buff : Int) : Option (OpenStep σ) :=
  match s.eocd with
  | none => none
  | some e =>
    match K.Parse chunk.data buff e.cdSize e.nbCdRec with
    | none =>
      some { session := s, args := a,
             events := [Event.cdParse buff e.cdSize e.nbCdRec,
                        Event.handler (stError Code.errDataError) none],
             flow := Flow.Stop (stError Code.errDataError) }
    | some (cdvec, cdmap) =>
      some { session := { s with cdvec := cdvec, cdmap := cdmap, openstage := OpenStages.Done,
                                 buffer := if chunk.data.length ≠ s.archsize then none
                                           else s.buffer },
             args := a,
             events := [Event.cdParse buff e.cdSize e.nbCdRec, Event.handler st none],
             flow := Flow.Return }

/-- Lines 148-168: `case HaveZip64EocdBlk`. -/
def stageHaveZip64EocdBlk {σ : Type} (K : Codec) (s : Session σ) (a : ReadArgs)
    (chunk : Chunk) (buff : Int) : Option (OpenStep σ) :=
  if K.to32 chunk.data buff ≠ zip64EocdSign then
    some { session := s, args := a,
           events := [Event.handler (stError Code.errDataError) none],
           flow := Flow.Stop (stError Code.errDataError) }
  else
    let z := K.parseZIP64_EOCD chunk.data buff
    some { session := { s with zip64eocd := some z, cdoff := z.cdOffset,
                               buffer := some (List.replicate (cast32 z.cdSize) 0),
                               openstage := OpenStages.HaveCdRecords },
           args := ⟨z.cdOffset, cast32 z.cdSize⟩, events := [], flow := Flow.Repeat }

/-- Lines 129-146: `case HaveZip64EocdlBlk`. -/
def stageHaveZip64EocdlBlk {σ : Type} (K : Codec) (s : Session σ) (a : ReadArgs)
    (chunk : Chunk) (buff : Int) : Option (OpenStep σ) :=
  let eocdl := K.parseZIP64_EOCDL chunk.data buff
  if chunk.offset > eocdl.zip64EocdOffset then
    let rdsize := cast32 (sub64 s.archsize eocdl.zip64EocdOffset)
    some { session := { s with buffer := some (List.replicate rdsize 0),
                               openstage := OpenStages.HaveZip64EocdBlk },
           args := ⟨eocdl.zip64EocdOffset, rdsize⟩, events := [], flow := Flow.Repeat }
  else
    stageHaveZip64EocdBlk K { s with openstage := OpenStages.HaveZip64EocdBlk } a chunk
      (sub64 eocdl.zip64EocdOffset chunk.offset)

/-- Lines 80-127: `case HaveEocdBlk`; `buff` is the start of the chunk. -/
def stageHaveEocdBlk {σ : Type} (K : Codec) (s : Session σ) (a : ReadArgs)
    (st : XRootDStatus) (chunk : Chunk) : Option (OpenStep σ) :=
  match K.Find chunk.data chunk.data.length with
  | none =>
    some { session := s, args := a,
           events := [Event.handler (stError Code.errDataError) none],
           flow := Flow.Stop (stError Code.errDataError) }
  | some eocdBlock =>
    let eocd := K.parseEOCD chunk.data eocdBlock
    if chunk.data.length = s.archsize then
      stageHaveCdRecords K
        { s with eocd := some eocd, cdoff := eocd.cdOffset,
                 openstage := OpenStages.HaveCdRecords } a st chunk eocd.cdOffset
    else
      let zip64EocdlBlock : Int := (eocdBlock : Int) - zip64EocdlSize
      if zip64EocdlBlock > 0 ∧ K.to32 chunk.data zip64EocdlBlock = zip64EocdlSign then
        stageHaveZip64EocdlBlk K
          { s with eocd := some eocd, openstage := OpenStages.HaveZip64EocdlBlk } a chunk
          zip64EocdlBlock
      else
        some { session := { s with eocd := some eocd, cdoff := eocd.cdOffset,
                                   buffer := some (List.replicate (cast32 eocd.cdSize) 0),
                                   openstage := OpenStages.HaveCdRecords },
               args := ⟨eocd.cdOffset, cast32 eocd.cdSize⟩, events := [], flow := Flow.Repeat }

/-- The session buffer once the remote read has stored `data` at its start. -/
def fillBuffer (buffer : Option (List Byte)) (data : List Byte) : Option (List Byte) :=
  buffer.map fun b => data ++ b.drop data.length

/-- Lines 67-197: the continuation of the read stage of the open pipeline. -/
def OpenArchiveRead {σ : Type} (K : Codec) (s : Session σ) (a : ReadArgs)
    (st : XRootDStatus) (chunk : Chunk) : Option (OpenStep σ) :=
  if interrupted st then
    some { session := s, args := a, events := [], flow := Flow.Return }
  else if !st.ok then
    some { session := s, args := a, events := [Event.handler st none], flow := Flow.Return }
  else
    let s := { s with buffer := fillBuffer s.buffer chunk.data }
    match s.openstage with
    | OpenStages.HaveEocdBlk => stageHaveEocdBlk K s a st chunk
    | OpenStages.HaveZip64EocdlBlk => stageHaveZip64EocdlBlk K s a chunk 0
    | OpenStages.HaveZip64EocdBlk => stageHaveZip64EocdBlk K s a chunk 0
    | OpenStages.HaveCdRecords => stageHaveCdRecords K s a st chunk 0
    | _ =>
      some { session := s, args := a, events := [],
             flow := Flow.Stop (stError Code.errInvalidOp) }

end XrdCl

namespace XrdCl

/-- The length of user data a call carries: the bytes copied to the user
buffer, the output length bound in the inflate cache, or the length of the
chunk handed to the handler. -/
def Event.userLength : Event → Option Nat
  | Event.memcpy _ len => some len
  | Event.cacheOutput len _ => some len
  | Event.handler _ (some c) => some c.length
  | _ => none

/-- Invariant (I3): `cdmap[n] == i` exactly when `cdvec[i].filename == n`. -/
def Agree (cdvec : List CDFH) (cdmap : List (String × Nat)) : Prop :=
  ∀ n i, mapFind cdmap n = some i ↔ (cdvec[i]?).map CDFH.filename = some n

/-- The total number of bytes of a sequence of `Write` calls. -/
def totalSize (ws : List (Nat × List Byte)) : Nat := (ws.map Prod.fst).sum

/-- The operation `ZipArchive::List( list )`: the status it returns and, when the
archive is open, one entry per CDFH with the member name and uncompressed
size, in directory order (parent path, host and stat data come from the remote
client). -/
def ZipArchive_List {σ : Type} (s : Session σ) : XRootDStatus × Option (List (String × Nat)) :=
  if s.openstage ≠ OpenStages.Done then (stError Code.errInvalidOp, none)
  else (stOK, some (s.cdvec.map fun c => (c.filename, c.uncompressedSize)))

/-- Modelled from the spec: the pipeline adapter (external) driving the read stage
of the open pipeline; it issues the read with the forwarded arguments, runs the
continuation on the response, and issues the read again when the continuation
leaves through `Repeat`.  The value `resp n a` is the response of the remote
file to the `n`-th read, issued with arguments `a`; `fuel` bounds the number of
reads. -/
def OpenArchiveLoop {σ : Type} (K : Codec) (resp : Nat → ReadArgs → XRootDStatus × List Byte) :
    Nat → Nat → Session σ → ReadArgs → Option (Session σ × List Event)
  | 0, _, _, _ => none
  | fuel + 1, n, s, a =>
    match OpenArchiveRead K s a (resp n a).1 ⟨a.rdoff, (resp n a).2⟩ with
    | none => none
    | some r =>
      match r.flow with
      | Flow.Repeat =>
        (OpenArchiveLoop K resp fuel (n + 1) r.session r.args).map fun p =>
          (p.1, Event.remoteRead a.rdoff a.rdsize :: (r.events ++ p.2))
      | _ => some (r.session, Event.remoteRead a.rdoff a.rdsize :: r.events)

/-- The operation `ZipArchive::OpenArchive( url, flags, handler, timeout )` run to
the end of its pipeline: the remote open answers `st` and size `size`, the
reads answer `resp`; returns the final session and all calls made. -/
def OpenArchive {σ : Type} (K : Codec) (resp : Nat → ReadArgs → XRootDStatus × List Byte)
    (s : Session σ) (st : XRootDStatus) (size : Nat) (fuel : Nat) :
    Option (Session σ × List Event) :=
  if st.ok ∧ (OpenArchiveOpened s st size).flow = Flow.Return then
    (OpenArchiveLoop K resp fuel 0 (OpenArchiveOpened s st size).session
      (OpenArchiveOpened s st size).args).map fun p =>
        (p.1, (OpenArchiveOpened s st size).events ++ p.2)
  else some ((OpenArchiveOpened s st size).session, (OpenArchiveOpened s st size).events)

/-- Modelled from the spec: a remote file of content `file` answering every read
with the bytes it holds in the requested range. -/
def fileResp (file : List Byte) : Nat → ReadArgs → XRootDStatus × List Byte :=
  fun _ a => (stOK, remoteBytes file a.rdoff a.rdsize)

/-- The position of a stage in the order of the open machine. -/
def stageRank : OpenStages → Nat
  | OpenStages.None => 0
  | OpenStages.HaveEocdBlk => 1
  | OpenStages.HaveZip64EocdlBlk => 2
  | OpenStages.HaveZip64EocdBlk => 3
  | OpenStages.HaveCdRecords => 4
  | OpenStages.Done => 5
  | OpenStages.Error => 6

/-- The calls of the user handler among a list of calls. -/
def handlerCalls : List Event → List (XRootDStatus × Option ChunkInfo)
  | [] => []
  | Event.handler st c :: rest => (st, c) :: handlerCalls rest
  | _ :: rest => handlerCalls rest

/-- The number of remote reads the open pipeline can still issue from a stage,
the coming one included. -/
def readsLeft : OpenStages → Nat
  | OpenStages.HaveEocdBlk => 3
  | OpenStages.HaveZip64EocdlBlk => 3
  | OpenStages.HaveZip64EocdBlk => 2
  | _ => 1

/-- The stages in which `eocd` has been parsed: every stage the read continuation
is re-entered in after `HaveEocdBlk`. -/
def eocdParsed {σ : Type} (s : Session σ) : Prop :=
  s.openstage = OpenStages.HaveEocdBlk ∨ s.openstage = OpenStages.None ∨
  s.openstage = OpenStages.Done ∨ s.openstage = OpenStages.Error ∨ s.eocd.isSome = true

/-- The test of lines 94-116 that sends the open machine on its ZIP64 path: the
tail read did not cover the archive of `size` bytes and the EOCD record found
in it is preceded, after the start of the buffer, by the locator signature. -/
def locatorFound (K : Codec) (size : Nat) (tail : List Byte) : Prop :=
  tail.length ≠ size ∧
  ∃ eb, K.Find tail tail.length = some eb ∧ (eb : Int) - zip64EocdlSize > 0 ∧
    K.to32 tail ((eb : Int) - zip64EocdlSize) = zip64EocdlSign

/-- The central-directory offset of a session agrees with its trailer records:
`cdoff` is `eocd.cdOffset` with `zip64eocd` unset, or it is `zip64eocd.cdOffset`
and the proposition `Z` holds. -/
def cdoffAgrees {σ : Type} (Z : Prop) (s : Session σ) : Prop :=
  (s.zip64eocd = none ∧ ∃ e, s.eocd = some e ∧ s.cdoff = e.cdOffset) ∨
  (∃ z, s.zip64eocd = some z ∧ s.cdoff = z.cdOffset ∧ s.eocd.isSome = true ∧ Z)

/-- What holds of the session and the read arguments when the `n`-th read of an
open of an archive of `size` bytes is issued, `zip64eocd` unset at the start. -/
def openInv {σ : Type} (Z : Prop) (size : Nat) (a0 : ReadArgs) (n : Nat) (s : Session σ)
    (a : ReadArgs) : Prop :=
  (n = 0 ∧ s.openstage = OpenStages.HaveEocdBlk ∧ s.zip64eocd = none ∧ s.archsize = size ∧
    a = a0) ∨
  (n ≠ 0 ∧ s.openstage = OpenStages.HaveZip64EocdBlk ∧ s.zip64eocd = none ∧
    s.eocd.isSome = true ∧ Z) ∨
  (n ≠ 0 ∧ s.openstage = OpenStages.HaveCdRecords ∧ cdoffAgrees Z s)

/-- What holds of the session and the read arguments when the `n`-th read of an
open of an archive of `size` bytes is issued: the buffer was allocated for the
read, and after the tail read the archive is larger than the cap and `cdoff`
is where the read for the central directory starts. -/
def keepInv {σ : Type} (size : Nat) (a0 : ReadArgs) (n : Nat) (s : Session σ)
    (a : ReadArgs) : Prop :=
  s.archsize = size ∧
  ((n = 0 ∧ s.openstage = OpenStages.HaveEocdBlk ∧ a = a0 ∧
      s.buffer = some (List.replicate a0.rdsize 0)) ∨
   (n ≠ 0 ∧ maxrdsz < size ∧ s.openstage = OpenStages.HaveZip64EocdBlk) ∨
   (n ≠ 0 ∧ maxrdsz < size ∧ s.openstage = OpenStages.HaveCdRecords ∧ s.cdoff = a.rdoff ∧
      s.buffer = some (List.replicate a.rdsize 0)))

/-- What holds of the buffer when the open of the archive `file` ends in stage
Done: an archive within the cap is retained whole; a larger one is dropped,
unless the last read started at offset 0 and returned the whole archive. -/
def keepPost {σ : Type} (file : List Byte) (s : Session σ) : Prop :=
  s.openstage = OpenStages.Done →
    (file.length ≤ maxrdsz → s.buffer = some file) ∧
    (maxrdsz < file.length → ∀ b, s.buffer = some b → b.take file.length = file ∧ s.cdoff = 0)

/-! ## Sample inputs -/

/-- A cache that accepts every call, never decodes anything and asks for more. -/
def idleCache : InflCache Unit :=
  { init := (), Input := fun _ _ _ _ _ => (stOK, ()), Output := fun _ _ _ => (stOK, ()),
    Read := fun _ => (⟨true, Code.suPartial⟩, 0, ()), NextChunkOffset := fun _ => 0 }

/-- A codec that writes every record as zero bytes of its declared size and
finds nothing in a buffer. -/
def zeroCodec : Codec :=
  { serLFH := fun l => List.replicate l.lfhSize 0,
    serCDFH := fun c => List.replicate c.cdfhSize 0,
    serEOCD := fun e => List.replicate e.eocdSize 0,
    serZIP64_EOCD := fun z => List.replicate z.zip64EocdTotalSize 0,
    serZIP64_EOCDL := fun _ => List.replicate zip64EocdlSize 0,
    lfhExtraLength := fun _ => 0,
    cdfhExtraLength := fun _ _ => 0,
    Find := fun _ _ => none,
    parseEOCD := fun _ _ => ⟨0, 0, 0, 0, eocdBaseSize, false⟩,
    to32 := fun _ _ => 0,
    parseZIP64_EOCDL := fun _ _ => ⟨0⟩,
    parseZIP64_EOCD := fun _ _ => ⟨0, 0, 0, zip64EocdBaseSize⟩,
    Parse := fun _ _ _ _ => some ([], []) }

/-- A session on an archive of 200 bytes, not cached, holding the stored member
`x` of 69 bytes; the central directory starts at offset 100. -/
def sessX : Session Unit :=
  { archsize := 200, cdexists := true, updated := false, cdoff := 100,
    openstage := OpenStages.Done, flags := OpenFlags.None,
    eocd := some ⟨1, 47, 100, 31, 53, false⟩, zip64eocd := none,
    cdvec := [⟨"x", 0, 69, 69, 0, 47⟩], cdmap := [("x", 0)], buffer := none,
    openfn := "", lfh := none, inflcache := [] }

/-- The session `sessX` with the member `x` selected. -/
def sessXopen : Session Unit := { sessX with openfn := "x" }

/-- The session `OpenArchive` leaves on an empty remote file (size 0). -/
def sessEmpty : Session Unit := (OpenArchiveOpened (Session.init Unit) stOK 0).session

/-- The bytes of `hello`. -/
def hello : List Byte := [104, 101, 108, 108, 111]

/-- The calls `OpenFile( name, New, 5, crc32 )` on session `s` with a successful LFH
write, followed by one successful `Write( 5, "hello" )`: the session reached
and the calls made. -/
def appendHello (s : Session Unit) (name : String) : Option (Session Unit × List Event) :=
  (OpenFileNew zeroCodec s name OpenFlags.New 5 0x3610a686 0 true stOK).map fun r =>
    let w := WriteAll r.session true [(5, hello)]
    (w.1, r.events ++ w.2)

/-- The central directory header of the `i`-th member of `sessBig`: 65535 bytes
(46 bytes, the name, and extra field and comment filling the rest). -/
def bigEntry (i : Nat) : CDFH := ⟨"f" ++ toString i, 0, 4, 4, 40 * i, 65535⟩

/-- The central directory of `sessBig`: 70000 members. -/
@[irreducible]
def bigCdvec : List CDFH := (List.range 70000).map bigEntry

/-- A session in stage Done with 70000 members, 4587450000 bytes of central
directory headers, after a `Write`. -/
def sessBig : Session Unit :=
  { archsize := 2800000, cdexists := false, updated := true, cdoff := 2800000,
    openstage := OpenStages.Done, flags := OpenFlags.Update, eocd := none, zip64eocd := none,
    cdvec := bigCdvec,
    cdmap := (List.range 70000).map fun i => ("f" ++ toString i, i),
    buffer := none, openfn := "f69999", lfh := none, inflcache := [] }

/-- The central directory of a ZIP64 archive with 65536 small members: headers of
52 bytes, 3407872 bytes in all. -/
@[irreducible]
def zipCdvec : List CDFH :=
  (List.range 65536).map fun i => ⟨"f" ++ toString i, 0, 4, 4, 40 * i, 52⟩

/-- The session `sessXopen` after a `Write`. -/
def sessXwritten : Session Unit := { sessXopen with updated := true }

/-- A codec reading a ZIP64 archive whose central directory is `zipCdvec`
(65536 headers, 3407872 bytes at offset 5 GiB): every signature matches, the
ZIP64 EOCD declares the true values, and `Parse` decodes at most `nbCdRecords`
headers. -/
def zip64Codec : Codec :=
  { zeroCodec with
    to32 := fun _ _ => zip64EocdSign,
    parseZIP64_EOCD := fun _ _ => ⟨65536, 3407872, 5368709120, zip64EocdBaseSize⟩,
    Parse := fun _ _ _ nb =>
      some (zipCdvec.take nb, (zipCdvec.take nb).enum.map fun p => (p.2.filename, p.1)) }

/-- The session of the open machine on that archive once the tail has been
read and the ZIP64 EOCD block requested: the 32-bit EOCD holds the all-ones
values `0xFFFF` and `0xFFFFFFFF`. -/
def sessZip64 : Session Unit :=
  { Session.init Unit with
    archsize := 5372117090, openstage := OpenStages.HaveZip64EocdBlk,
    eocd := some ⟨0xFFFF, 0xFFFFFFFF, 0xFFFFFFFF, 0, 22, true⟩,
    buffer := some (List.replicate 98 0) }

/-- A session in stage Done on a 200-byte archive, not cached, whose only member
`b` is compressed with method 12 (bzip2) and is active. -/
def sessBzip : Session Unit :=
  { sessX with cdvec := [⟨"b", 12, 69, 500, 0, 47⟩], cdmap := [("b", 0)], openfn := "b" }

/-- A session in stage Done on a 200-byte archive cached in `buffer`, whose only
member `d` is deflated (69 compressed bytes at `[31, 100)`, 500 uncompressed)
and is active. -/
def sessDeflCached : Session Unit :=
  { sessX with cdvec := [⟨"d", 8, 69, 500, 0, 47⟩], cdmap := [("d", 0)], openfn := "d",
               buffer := some (List.replicate 200 7) }

/-- The session `sessDeflCached` without the cached archive. -/
def sessDeflRemote : Session Unit := { sessDeflCached with buffer := none }

/-- The `Input` calls among a list of calls. -/
def inputsOf : List Event → List (Nat × Nat × Nat)
  | [] => []
  | Event.cacheInput src len raw :: rest => (src, len, raw) :: inputsOf rest
  | _ :: rest => inputsOf rest

/-- The last 65577 bytes of a ZIP64 archive whose comment has the maximal length
65535 (content immaterial to the codec below). -/
@[irreducible]
def tailChunk : List Byte := List.replicate 65577 0

/-- A codec reading that tail: the EOCD record is found at index 20, after the
20 bytes of the ZIP64 EOCD locator, whose signature is at index 0. -/
def commentCodec : Codec :=
  { zeroCodec with
    Find := fun _ _ => some 20,
    parseEOCD := fun _ _ => ⟨0xFFFF, 0xFFFFFFFF, 0xFFFFFFFF, 65535, 65557, true⟩,
    to32 := fun _ i => if i = 0 then zip64EocdlSign else 0 }

/-- The session of the open machine on that archive (5 GiB of data and more)
when the tail read has been issued. -/
def sessTail : Session Unit :=
  (OpenArchiveOpened (Session.init Unit) stOK 5372182625).session

/-- A codec that finds an EOCD record at the start of every buffer; the record
declares an empty central directory at offset 0. -/
def findCodec : Codec := { zeroCodec with Find := fun _ _ => some 0 }

/-- An archive without members: the 22 bytes of an EOCD record. -/
def emptyZip : List Byte := [80, 75, 5, 6] ++ List.replicate 18 0

/-- A codec reading an EOCD record, found at the start of the buffer, that
declares one central directory header in 5000 bytes at offset 1000. -/
def wildCodec : Codec :=
  { zeroCodec with
    Find := fun _ _ => some 0,
    parseEOCD := fun _ _ => ⟨1, 5000, 1000, 0, eocdBaseSize, false⟩ }

/-- The session of the open machine on a 22-byte archive when the tail read has
been issued. -/
def sess22 : Session Unit := (OpenArchiveOpened (Session.init Unit) stOK 22).session

/-- A codec reading an archive of `n` bytes whose EOCD record, the last 22 bytes
of every buffer, declares a central directory without headers, of `n` bytes at
offset 0; no locator signature precedes it. -/
def lyingCodec (n : Nat) : Codec :=
  { zeroCodec with
    Find := fun _ len => some (len - eocdBaseSize),
    parseEOCD := fun _ _ => ⟨0, n, 0, 0, eocdBaseSize, false⟩ }

/-- The content of an archive of 70000 bytes (immaterial to `lyingCodec`). -/
@[irreducible]
def bigFile : List Byte := List.replicate 70000 0

/-! ## Arithmetic lemmas -/

theorem sub64_of_le (a b : Nat) (ha : a < 2 ^ 64) (hb : b ≤ a) : sub64 a b = a - b := by
  unfold sub64; omega

theorem add64_of_lt (a b : Nat) (h : a + b < 2 ^ 64) : add64 a b = a + b := by
  unfold add64; omega

theorem cast32_of_lt (a : Nat) (h : a < 2 ^ 32) : cast32 a = a := by
  unfold cast32; omega

theorem clampSize_eq_min (cdfh : CDFH) (relativeOffset size : Nat) (hsize : size < 2 ^ 32) :
    clampSize cdfh relativeOffset size = min size (cdfh.uncompressedSize - relativeOffset) := by
  unfold clampSize cast32
  simp only
  split_ifs <;> omega

end XrdCl

namespace XrdCl

/-! ## Read: the stored path -/

/-- What `Read` does once its checks have passed, in terms of the clamp and of
the two offsets it computes. -/
theorem Read_accepted {σ : Type} (ops : InflCache σ) (s : Session σ)
    (relativeOffset size idx cdOffset : Nat) (cdfh : CDFH) (usrHandler : Bool)
    (hstage : s.openstage = OpenStages.Done) (hfn : s.openfn ≠ "")
    (hmap : mapFind s.cdmap s.openfn = some idx) (hvec : s.cdvec[idx]? = some cdfh)
    (hmeth : cdfh.compressionMethod = 0 ∨ cdfh.compressionMethod = Z_DEFLATED)
    (hcd : cdOffsetOf s = some cdOffset) :
    Read ops s relativeOffset size usrHandler =
      some (if cdfh.compressionMethod = Z_DEFLATED then
              ReadDeflate ops s cdfh.compressedSize
                (sub64 (nextRecordOffset s idx cdOffset) cdfh.compressedSize)
                (add64 (sub64 (nextRecordOffset s idx cdOffset) cdfh.compressedSize)
                  relativeOffset)
                relativeOffset (clampSize cdfh relativeOffset size) usrHandler
            else
              ReadStored s
                (add64 (sub64 (nextRecordOffset s idx cdOffset) cdfh.compressedSize)
                  relativeOffset)
                relativeOffset (clampSize cdfh relativeOffset size) usrHandler) := by
  unfold Read
  have h1 : ¬ (s.openstage ≠ OpenStages.Done ∨ s.openfn = "") := by
    simp [hstage, hfn]
  have h2 : ¬ (cdfh.compressionMethod ≠ 0 ∧ cdfh.compressionMethod ≠ Z_DEFLATED) := by
    rcases hmeth with h | h <;> simp [h]
  rw [if_neg h1]
  simp only [hmap, hvec, hcd, if_neg h2]
  split_ifs <;> rfl

/-- C1 (amended): for a session in stage Done whose trailer record is present
and declares the central directory at `cdoff` (as `OpenArchive` leaves it, no
member appended since), with an active stored member at index `idx`, and a read
with `rel_off + size <= uncompressedSize`: with `fileoff = next_record_offset -
compressedSize` (`next_record_offset` the local-header offset of `cdvec[idx+1]`
when there is one, otherwise `cdoff`) and `offset = fileoff + rel_off` in 64-bit
arithmetic, `Read` leaves the session unchanged and, when the archive is cached
in `buffer`, copies `size` bytes from `buffer` at index `offset` (the archive
bytes `[offset, offset+size)` when that range is inside the buffer) with no
remote I/O; when `buffer` is absent and `size > 0` it issues exactly one remote
read of `size` bytes at `offset`, whose chunk is handed to the handler; when
`buffer` is absent and `size = 0` it issues no remote read and hands over an
empty chunk. -/
theorem Read_stored_range {σ : Type} (ops : InflCache σ) (s : Session σ)
    (relativeOffset size idx : Nat) (cdfh : CDFH) (usrHandler : Bool)
    (hstage : s.openstage = OpenStages.Done) (hfn : s.openfn ≠ "")
    (hmap : mapFind s.cdmap s.openfn = some idx) (hvec : s.cdvec[idx]? = some cdfh)
    (hstored : cdfh.compressionMethod = 0) (hcd : cdOffsetOf s = some s.cdoff)
    (hsize : size < 2 ^ 32) (hfit : relativeOffset + size ≤ cdfh.uncompressedSize) :
    (∀ archive, s.buffer = some archive →
        Read ops s relativeOffset size usrHandler =
          some { session := s, ret := stOK,
                 events :=
                  (if size ≠ 0 then
                    [Event.memcpy (add64 (sub64 (nextRecordOffset s idx s.cdoff)
                      cdfh.compressedSize) relativeOffset) size] else []) ++
                  notify usrHandler stOK (some ⟨relativeOffset, size⟩) } ∧
        (add64 (sub64 (nextRecordOffset s idx s.cdoff) cdfh.compressedSize) relativeOffset
            + size ≤ archive.length →
          memcpyBytes archive
            (add64 (sub64 (nextRecordOffset s idx s.cdoff) cdfh.compressedSize) relativeOffset)
            size =
          some (remoteBytes archive
            (add64 (sub64 (nextRecordOffset s idx s.cdoff) cdfh.compressedSize) relativeOffset)
            size))) ∧
    (s.buffer = none → 0 < size →
        Read ops s relativeOffset size usrHandler =
          some { session := s, ret := stOK,
                 events := [Event.remoteRead (add64 (sub64 (nextRecordOffset s idx s.cdoff)
                   cdfh.compressedSize) relativeOffset) size] } ∧
        ∀ n, ReadStoredDone relativeOffset usrHandler stOK n =
          notify usrHandler stOK (some ⟨relativeOffset, n⟩)) ∧
    (s.buffer = none → size = 0 →
        Read ops s relativeOffset size usrHandler =
          some { session := s, ret := stOK,
                 events := notify usrHandler stOK (some ⟨relativeOffset, 0⟩) }) ∧
    (nextRecordOffset s idx s.cdoff < 2 ^ 64 →
      cdfh.compressedSize ≤ nextRecordOffset s idx s.cdoff →
      nextRecordOffset s idx s.cdoff - cdfh.compressedSize + relativeOffset < 2 ^ 64 →
      add64 (sub64 (nextRecordOffset s idx s.cdoff) cdfh.compressedSize) relativeOffset =
        nextRecordOffset s idx s.cdoff - cdfh.compressedSize + relativeOffset) := by
  have hclamp : clampSize cdfh relativeOffset size = size := by
    rw [clampSize_eq_min _ _ _ hsize]; omega
  have hnd : ¬ cdfh.compressionMethod = Z_DEFLATED := by simp [hstored, Z_DEFLATED]
  have hR := Read_accepted ops s relativeOffset size idx s.cdoff cdfh usrHandler
    hstage hfn hmap hvec (Or.inl hstored) hcd
  rw [if_neg hnd, hclamp] at hR
  refine ⟨?_, ?_, ?_, ?_⟩
  · intro archive hb
    refine ⟨?_, ?_⟩
    · rw [hR]; simp [ReadStored, hb]
    · intro hin
      simp [memcpyBytes, hin, remoteBytes]
  · intro hb hpos
    refine ⟨?_, ?_⟩
    · rw [hR]
      have : size ≠ 0 := by omega
      simp [ReadStored, hb, this]
    · intro n; simp [ReadStoredDone, stOK]
  · intro hb h0
    rw [hR]; subst h0; simp [ReadStored]
  · intro h1 h2 h3
    rw [sub64_of_le _ _ h1 h2, add64_of_lt _ _ h3]

end XrdCl

namespace XrdCl

/-- Witness of C1 (amended): the member `x` of `sessX`, whose EOCD declares the
central directory at `cdoff = 100`, read without a cached archive, is fetched
by one remote read at offset `100 - 69 = 31`. -/
theorem Read_stored_range_witness :
    sessXopen.openstage = OpenStages.Done ∧ sessXopen.buffer = none ∧
    cdOffsetOf sessXopen = some sessXopen.cdoff ∧
    Read idleCache sessXopen 0 5 true =
      some { session := sessXopen, ret := stOK, events := [Event.remoteRead 31 5] } :=
  ⟨rfl, rfl, rfl,
    ((Read_stored_range idleCache sessXopen 0 5 0 ⟨"x", 0, 69, 69, 0, 47⟩ true
      rfl (by decide) rfl rfl rfl rfl (by norm_num) (by decide)).2.1 rfl (by decide)).1⟩

/-- Counterexample to C1 as stated: a read of `size = 0` of the stored member
`x`, with no cached archive, satisfies `rel_off + size <= uncompressedSize` but
issues no remote read at all (the claim says exactly one). -/
theorem Read_stored_zero_size_no_remote_read :
    sessXopen.openstage = OpenStages.Done ∧ sessXopen.buffer = none ∧
    mapFind sessXopen.cdmap sessXopen.openfn = some 0 ∧
    sessXopen.cdvec[0]? = some ⟨"x", 0, 69, 69, 0, 47⟩ ∧
    0 + 0 ≤ 69 ∧
    (Read idleCache sessXopen 0 0 true).map (fun r => (r.ret, r.events)) =
      some (stOK, [Event.handler stOK (some ⟨0, 0⟩)]) ∧
    (Read idleCache sessXopen 0 0 true).map (fun r => readsOf r.events) = some [] :=
  ⟨rfl, rfl, rfl, rfl, by decide, rfl, rfl⟩

end XrdCl

namespace XrdCl

/-! ## Read: the clamp -/

theorem mem_notify (h : Bool) (st : XRootDStatus) (c : Option ChunkInfo) (e : Event)
    (he : e ∈ notify h st c) : e = Event.handler st c := by
  unfold notify at he
  cases h <;> simp at he
  exact he

theorem ReadStored_userLength {σ : Type} (s : Session σ) (offset relativeOffset size : Nat)
    (usrHandler : Bool) (e : Event) (he : e ∈ (ReadStored s offset relativeOffset size
      usrHandler).events) :
    (∀ n, e.userLength = some n → n = size) ∧ (∀ off n, e = Event.remoteRead off n → n = size) := by
  unfold ReadStored at he
  by_cases hc : s.buffer.isSome ∨ size = 0
  · rw [if_pos hc] at he
    simp only [List.mem_append] at he
    rcases he with he | he
    · by_cases hs : size ≠ 0
      · rw [if_pos hs] at he
        simp only [List.mem_singleton] at he
        subst he; simp [Event.userLength]
      · rw [if_neg hs] at he; simp at he
    · have := mem_notify _ _ _ _ he
      subst this; simp [Event.userLength]
  · rw [if_neg hc] at he
    simp only [List.mem_singleton] at he
    subst he; simp [Event.userLength]

end XrdCl

namespace XrdCl

theorem ReadDeflate_userLength {σ : Type} (ops : InflCache σ) (s : Session σ)
    (filesize fileoff offset relativeOffset size : Nat) (usrHandler : Bool) :
    ∀ e ∈ (ReadDeflate ops s filesize fileoff offset relativeOffset size usrHandler).events,
      ∀ n, e.userLength = some n → n = size := by
  unfold ReadDeflate
  simp only []
  cases usrHandler <;> split_ifs <;> simp [notify, Event.userLength]

end XrdCl

namespace XrdCl

theorem ReadDeflate_output {σ : Type} (ops : InflCache σ) (s : Session σ)
    (filesize fileoff offset relativeOffset size : Nat) (usrHandler : Bool) :
    Event.cacheOutput size relativeOffset ∈
        (ReadDeflate ops s filesize fileoff offset relativeOffset size usrHandler).events ∨
      (ReadDeflate ops s filesize fileoff offset relativeOffset size usrHandler).ret.ok = false := by
  unfold ReadDeflate
  simp only []
  split_ifs <;> simp_all

theorem readsOf_notify (h : Bool) (st : XRootDStatus) (c : Option ChunkInfo) :
    readsOf (notify h st c) = [] := by
  cases h <;> simp [notify, readsOf]

/-- C3: for every accepted `Read` (stage Done, active member in `cdmap` and
`cdvec`, method stored or deflate, trailer record present, `size` a 32-bit
value) the read returns, and every length it uses — the bytes copied from
`buffer`, the output length bound in the inflate cache, the chunk handed to the
handler, and for a stored member the length of the remote read — equals
`min(size, max(0, uncompressedSize - rel_off))`; a deflate read binds that
length with `Output` unless seeding the cache failed; a stored read with
`rel_off >= uncompressedSize` succeeds, hands over a chunk of 0 bytes and issues
no remote read. -/
theorem Read_effective_size {σ : Type} (ops : InflCache σ) (s : Session σ)
    (relativeOffset size idx cdOffset : Nat) (cdfh : CDFH) (usrHandler : Bool)
    (hstage : s.openstage = OpenStages.Done) (hfn : s.openfn ≠ "")
    (hmap : mapFind s.cdmap s.openfn = some idx) (hvec : s.cdvec[idx]? = some cdfh)
    (hmeth : cdfh.compressionMethod = 0 ∨ cdfh.compressionMethod = Z_DEFLATED)
    (hcd : cdOffsetOf s = some cdOffset) (hsize : size < 2 ^ 32) :
    ∃ r, Read ops s relativeOffset size usrHandler = some r ∧
      (∀ e ∈ r.events, ∀ n, e.userLength = some n →
        n = min size (cdfh.uncompressedSize - relativeOffset)) ∧
      (cdfh.compressionMethod = 0 → ∀ off n, Event.remoteRead off n ∈ r.events →
        n = min size (cdfh.uncompressedSize - relativeOffset)) ∧
      (cdfh.compressionMethod = Z_DEFLATED →
        Event.cacheOutput (min size (cdfh.uncompressedSize - relativeOffset)) relativeOffset
          ∈ r.events ∨ r.ret.ok = false) ∧
      (cdfh.compressionMethod = 0 → cdfh.uncompressedSize ≤ relativeOffset →
        r.session = s ∧ r.ret = stOK ∧
        r.events = notify usrHandler stOK (some ⟨relativeOffset, 0⟩) ∧
        readsOf r.events = []) := by
  have hR := Read_accepted ops s relativeOffset size idx cdOffset cdfh usrHandler
    hstage hfn hmap hvec hmeth hcd
  rw [clampSize_eq_min _ _ _ hsize] at hR
  refine ⟨_, hR, ?_, ?_, ?_, ?_⟩
  · by_cases hd : cdfh.compressionMethod = Z_DEFLATED
    · rw [if_pos hd]; exact ReadDeflate_userLength _ _ _ _ _ _ _ _
    · rw [if_neg hd]
      intro e he
      exact (ReadStored_userLength _ _ _ _ _ e he).1
  · intro h0 off n he
    have hd : ¬ cdfh.compressionMethod = Z_DEFLATED := by simp [h0, Z_DEFLATED]
    rw [if_neg hd] at he
    exact (ReadStored_userLength _ _ _ _ _ _ he).2 off n rfl
  · intro hd
    rw [if_pos hd]
    exact ReadDeflate_output _ _ _ _ _ _ _ _
  · intro h0 hle
    have hd : ¬ cdfh.compressionMethod = Z_DEFLATED := by simp [h0, Z_DEFLATED]
    have hz : min size (cdfh.uncompressedSize - relativeOffset) = 0 := by omega
    rw [if_neg hd, hz]
    simp [ReadStored, readsOf_notify]

/-- Witness of C3: a read of 100 bytes at offset 60 of the 69-byte member `x` is
accepted and uses the length `min 100 (69 - 60) = 9`. -/
theorem Read_effective_size_witness :
    sessXopen.openstage = OpenStages.Done ∧
    ∃ r, Read idleCache sessXopen 60 100 true = some r ∧
      (∀ e ∈ r.events, ∀ n, e.userLength = some n → n = min 100 (69 - 60)) ∧
      (∀ off n, Event.remoteRead off n ∈ r.events → n = min 100 (69 - 60)) := by
  obtain ⟨r, h1, h2, h3, _, _⟩ :=
    Read_effective_size idleCache sessXopen 60 100 0 100 ⟨"x", 0, 69, 69, 0, 47⟩ true
      rfl (by decide) rfl rfl (Or.inl rfl) rfl (by norm_num)
  exact ⟨rfl, r, h1, h2, h3 rfl⟩

end XrdCl

namespace XrdCl

/-! ## Read after an append -/

set_option maxRecDepth 8000 in
/-- C2 (evaluated at two failing inputs).  On the 200-byte archive `sessX`
(central directory at 100), `OpenFile( "new", New, 5 )` writes the LFH at
`[100, 133)` and `Write( 5, "hello" )` writes the data at `[133, 138)`, leaving
`cdoff = 138`; `Read( 0, 5 )` of that last member takes its data to end at the
stale `eocd->cdOffset = 100` and requests `[95, 100)`, bytes of the old archive,
not the bytes written.  On an archive opened empty the same calls leave `eocd`
null and `Read` has no defined result. -/
theorem Read_after_append_uses_stale_cdOffset :
    ((appendHello sessX "new").map fun p =>
        (p.1.openstage, p.1.cdoff, mapFind p.1.cdmap p.1.openfn, p.1.cdvec.length, writesOf p.2)) =
      some (OpenStages.Done, 138, some 1, 2,
            [(100, 33, List.replicate 33 0), (133, 5, hello)]) ∧
    ((appendHello sessX "new").bind fun p => Read idleCache p.1 0 5 true).map
        (fun r => r.events) = some [Event.remoteRead 95 5] ∧
    ((appendHello sessX "new").map fun p =>
        remoteBytes (applyEvents (List.replicate 200 1) p.2) 95 5) = some [1, 1, 1, 1, 1] ∧
    ((appendHello sessX "new").map fun p =>
        remoteBytes (applyEvents (List.replicate 200 1) p.2) 133 5) = some hello ∧
    ((appendHello sessEmpty "a.txt").map fun p =>
        (p.1.openstage, p.1.cdoff, mapFind p.1.cdmap p.1.openfn, p.1.cdvec.length, writesOf p.2)) =
      some (OpenStages.Done, 40, some 0, 1,
            [(0, 35, List.replicate 35 0), (35, 5, hello)]) ∧
    ((appendHello sessEmpty "a.txt").bind fun p => Read idleCache p.1 0 5 true).isNone = true :=
  ⟨rfl, rfl, rfl, rfl, rfl, rfl⟩

/-- C3 (evaluated at the failing input).  In the session opened on an empty
archive, with the stored 5-byte member `a.txt` appended and active (stage Done,
member in `cdmap`, method 0), `Read( 5, 10 )` has `rel_off >= uncompressedSize`
but does not deliver a 0-byte chunk: `eocd` and `zip64eocd` are null and line
345 dereferences `eocd` before the clamp is reached. -/
theorem Read_on_new_archive_undefined :
    ((appendHello sessEmpty "a.txt").map fun p =>
        (p.1.openstage, p.1.openfn, mapFind p.1.cdmap p.1.openfn, p.1.cdvec,
         p.1.eocd, p.1.zip64eocd)) =
      some (OpenStages.Done, "a.txt", some 0, [⟨"a.txt", 0, 5, 5, 0, 51⟩], none, none) ∧
    ((appendHello sessEmpty "a.txt").bind fun p => Read idleCache p.1 5 10 true).isNone = true :=
  ⟨rfl, rfl⟩

/-! ## OpenFile -/

/-- C4 (evaluated at the failing input).  On `sessX` (stage Done, no active
member) the name `missing` is not a key of `cdmap` and the flags are
`OpenFlags::Read`, without `New`; `OpenFile` returns OK, not NotFound, issues
the remote write of an LFH at `cdoff = 100`, and once that write succeeds
`cdvec` and `cdmap` hold the new member. -/
theorem OpenFile_without_New_appends :
    sessX.openstage = OpenStages.Done ∧ sessX.openfn = "" ∧
    mapFind sessX.cdmap "missing" = none ∧ OpenFlags.Read &&& OpenFlags.New = 0 ∧
    (OpenFile zeroCodec sessX "missing" OpenFlags.Read 0 0 0 true).ret = stOK ∧
    (OpenFile zeroCodec sessX "missing" OpenFlags.Read 0 0 0 true).events =
      [Event.remoteWrite 100 37 (List.replicate 37 0)] ∧
    (OpenFileNew zeroCodec sessX "missing" OpenFlags.Read 0 0 0 true stOK).map
        (fun r => (r.session.cdvec, r.session.cdmap)) =
      some ([⟨"x", 0, 69, 69, 0, 47⟩, ⟨"missing", 0, 0, 0, 100, 53⟩],
            [("x", 0), ("missing", 1)]) :=
  ⟨rfl, rfl, rfl, rfl, rfl, rfl, rfl⟩

/-- The test `flags | OpenFlags::New` of line 218 holds for every value of
`flags`. -/
theorem flags_or_New_ne_zero (flags : Nat) : flags ||| OpenFlags.New ≠ 0 := by
  intro h
  have h3 : Nat.testBit (flags ||| OpenFlags.New) 3 = Nat.testBit 0 3 := by rw [h]
  rw [Nat.testBit_or] at h3
  have h8 : Nat.testBit OpenFlags.New 3 = true := by decide
  rw [h8] at h3
  simp at h3

/-- C6 (evaluated at the failing input).  In the session opened on an empty
archive, `OpenFile( "empty.txt", New, 0 )` with a successful LFH write appends
the member to `cdvec`, yet `updated` stays false, and the `CloseArchive` that
follows issues only the remote close: no central directory is written. -/
theorem OpenFile_append_leaves_updated_false :
    (OpenFileNew zeroCodec sessEmpty "empty.txt" OpenFlags.New 0 0 0 true stOK).map
        (fun r => (r.session.cdvec, r.session.cdoff, r.session.updated, writesOf r.events)) =
      some ([⟨"empty.txt", 0, 0, 0, 0, 55⟩], 39, false, [(0, 39, List.replicate 39 0)]) ∧
    (OpenFileNew zeroCodec sessEmpty "empty.txt" OpenFlags.New 0 0 0 true stOK).map
        (fun r => (CloseArchive zeroCodec r.session).events) = some [Event.remoteClose] :=
  ⟨rfl, rfl⟩

end XrdCl

namespace XrdCl

theorem mapFind_mapSet_self {β : Type} (m : List (String × β)) (k : String) (v : β) :
    mapFind (mapSet m k v) k = some v := by
  induction m with
  | nil => simp [mapSet, mapFind]
  | cons p rest ih =>
    obtain ⟨k', v'⟩ := p
    by_cases h : k' = k
    · simp [mapSet, mapFind, h]
    · simp [mapSet, mapFind, h, ih]

theorem mapFind_mapSet_other {β : Type} (m : List (String × β)) (k n : String) (v : β)
    (hn : n ≠ k) : mapFind (mapSet m k v) n = mapFind m n := by
  induction m with
  | nil =>
    have : ¬ k = n := fun h => hn h.symm
    simp [mapSet, mapFind, this]
  | cons p rest ih =>
    obtain ⟨k', v'⟩ := p
    by_cases h : k' = k
    · have : ¬ k = n := fun h => hn h.symm
      simp [mapSet, mapFind, h, this]
    · by_cases h2 : k' = n
      · subst h2
        simp [mapSet, mapFind, h]
      · simp [mapSet, mapFind, h, h2, ih]

theorem Agree_append (cdvec : List CDFH) (cdmap : List (String × Nat)) (c : CDFH)
    (hagree : Agree cdvec cdmap) (habs : mapFind cdmap c.filename = none) :
    Agree (cdvec ++ [c]) (mapSet cdmap c.filename cdvec.length) := by
  intro n i
  by_cases hn : n = c.filename
  · subst hn
    rw [mapFind_mapSet_self]
    constructor
    · intro h
      have : cdvec.length = i := by simpa using h
      subst this
      simp
    · intro h
      rcases Nat.lt_trichotomy i cdvec.length with hlt | heq | hgt
      · rw [List.getElem?_append_left hlt] at h
        have := (hagree c.filename i).2 h
        rw [habs] at this
        exact absurd this (by simp)
      · rw [heq]
      · rw [List.getElem?_eq_none (by simp; omega)] at h
        simp at h
  · rw [mapFind_mapSet_other _ _ _ _ hn]
    rw [hagree n i]
    rcases Nat.lt_trichotomy i cdvec.length with hlt | heq | hgt
    · rw [List.getElem?_append_left hlt]
    · subst heq
      have h1 : cdvec[cdvec.length]? = none := List.getElem?_eq_none (le_refl _)
      have h2 : (cdvec ++ [c])[cdvec.length]? = some c := by simp
      rw [h1, h2]
      simp only [Option.map_none', Option.map_some']
      constructor
      · intro h; exact absurd h (by simp)
      · intro h
        have : c.filename = n := by simpa using h
        exact absurd this.symm hn
    · rw [List.getElem?_eq_none (by omega), List.getElem?_eq_none (by simp; omega)]

end XrdCl

namespace XrdCl

/-- The operation `OpenFile` on a name absent from `cdmap`: the call itself. -/
theorem OpenFile_absent {σ : Type} (K : Codec) (s : Session σ) (fn : String)
    (flags size crc32 time : Nat) (handler : Bool)
    (hstage : s.openstage = OpenStages.Done) (hfn : s.openfn = "")
    (habs : mapFind s.cdmap fn = none) :
    OpenFile K s fn flags size crc32 time handler =
      { session := { s with flags := flags, openfn := fn,
                            lfh := some (LFH.new K fn crc32 size time), cdexists := false },
        ret := stOK,
        events := [Event.remoteWrite s.cdoff (cast32 (LFH.new K fn crc32 size time).lfhSize)
                    (K.serLFH (LFH.new K fn crc32 size time))] } := by
  unfold OpenFile
  have h1 : ¬ (s.openfn ≠ "" ∨ s.openstage ≠ OpenStages.Done) := by simp [hstage, hfn]
  rw [if_neg h1]
  simp only [habs]
  rw [if_pos (flags_or_New_ne_zero flags)]

/-- The session after a successful LFH write of `OpenFile` issued on `s`. -/
theorem OpenFileNew_ok {σ : Type} (K : Codec) (s : Session σ) (fn : String)
    (flags size crc32 time : Nat) (handler : Bool) (st : XRootDStatus)
    (hstage : s.openstage = OpenStages.Done) (hfn : s.openfn = "")
    (habs : mapFind s.cdmap fn = none) (hst : st.ok = true) :
    OpenFileNew K s fn flags size crc32 time handler st =
      some { session :=
               { s with flags := flags, openfn := fn,
                        lfh := some (LFH.new K fn crc32 size time), cdexists := false,
                        archsize := add64 s.archsize (cast32 (LFH.new K fn crc32 size time).lfhSize),
                        cdoff := add64 s.cdoff (cast32 (LFH.new K fn crc32 size time).lfhSize),
                        cdvec := s.cdvec ++
                          [CDFH.ofLFH K (LFH.new K fn crc32 size time) newFileMode s.cdoff],
                        cdmap := mapSet s.cdmap fn
                          ((s.cdvec ++ [CDFH.ofLFH K (LFH.new K fn crc32 size time)
                            newFileMode s.cdoff]).length - 1) },
             ret := st,
             events := [Event.remoteWrite s.cdoff (cast32 (LFH.new K fn crc32 size time).lfhSize)
                          (K.serLFH (LFH.new K fn crc32 size time))] ++ notify handler st none } := by
  unfold OpenFileNew
  rw [OpenFile_absent K s fn flags size crc32 time handler hstage hfn habs]
  simp only [OpenFileDone, hst, if_true, Option.map_some']

/-- The session after a failed LFH write of `OpenFile` issued on `s`. -/
theorem OpenFileNew_failed {σ : Type} (K : Codec) (s : Session σ) (fn : String)
    (flags size crc32 time : Nat) (handler : Bool) (st : XRootDStatus)
    (hstage : s.openstage = OpenStages.Done) (hfn : s.openfn = "")
    (habs : mapFind s.cdmap fn = none) (hst : st.ok = false) :
    OpenFileNew K s fn flags size crc32 time handler st =
      some { session :=
               { s with flags := flags, openfn := fn,
                        lfh := some (LFH.new K fn crc32 size time), cdexists := false },
             ret := st,
             events := [Event.remoteWrite s.cdoff (cast32 (LFH.new K fn crc32 size time).lfhSize)
                          (K.serLFH (LFH.new K fn crc32 size time))] ++ notify handler st none } := by
  unfold OpenFileNew
  rw [OpenFile_absent K s fn flags size crc32 time handler hstage hfn habs]
  simp [OpenFileDone, hst]

/-- C5: for a session in stage Done with no active member and `cdmap`/`cdvec`
in agreement, and a name absent from `cdmap` (whatever the flags, `New`
included), with `lfhSize` a 32-bit value and the 64-bit counters not
overflowing: `OpenFile` returns OK and writes the serialized LFH at the old
`cdoff` with length `lfhSize`; if the write succeeds, `archsize` and `cdoff` have
grown by exactly `lfhSize`, `cdvec` is the old sequence followed by one CDFH
whose filename is the name and whose local-header offset is the old `cdoff`,
`cdmap[name] == cdvec.size()-1`, the other `cdmap` entries are unchanged and the
agreement still holds; if the write fails, `cdvec`, `cdmap`, `cdoff` and
`archsize` are unchanged. -/
theorem OpenFile_New_appends {σ : Type} (K : Codec) (s : Session σ) (fn : String)
    (flags size crc32 time : Nat) (handler : Bool)
    (hstage : s.openstage = OpenStages.Done) (hfn : s.openfn = "")
    (hagree : Agree s.cdvec s.cdmap) (habs : mapFind s.cdmap fn = none)
    (hlfh : (LFH.new K fn crc32 size time).lfhSize < 2 ^ 32)
    (hoff : s.cdoff + (LFH.new K fn crc32 size time).lfhSize < 2 ^ 64)
    (harch : s.archsize + (LFH.new K fn crc32 size time).lfhSize < 2 ^ 64) :
    (OpenFile K s fn flags size crc32 time handler).ret = stOK ∧
    (OpenFile K s fn flags size crc32 time handler).events =
      [Event.remoteWrite s.cdoff (LFH.new K fn crc32 size time).lfhSize
        (K.serLFH (LFH.new K fn crc32 size time))] ∧
    (∀ st : XRootDStatus, st.ok = true →
      ∃ r c, OpenFileNew K s fn flags size crc32 time handler st = some r ∧
        r.session.archsize = s.archsize + (LFH.new K fn crc32 size time).lfhSize ∧
        r.session.cdoff = s.cdoff + (LFH.new K fn crc32 size time).lfhSize ∧
        r.session.cdvec = s.cdvec ++ [c] ∧ c.filename = fn ∧ c.GetOffset = s.cdoff ∧
        mapFind r.session.cdmap fn = some (r.session.cdvec.length - 1) ∧
        (∀ n, n ≠ fn → mapFind r.session.cdmap n = mapFind s.cdmap n) ∧
        Agree r.session.cdvec r.session.cdmap) ∧
    (∀ st : XRootDStatus, st.ok = false →
      ∃ r, OpenFileNew K s fn flags size crc32 time handler st = some r ∧
        r.session.cdvec = s.cdvec ∧ r.session.cdmap = s.cdmap ∧
        r.session.cdoff = s.cdoff ∧ r.session.archsize = s.archsize) := by
  have hO := OpenFile_absent K s fn flags size crc32 time handler hstage hfn habs
  rw [cast32_of_lt _ hlfh] at hO
  refine ⟨by rw [hO], by rw [hO], ?_, ?_⟩
  · intro st hst
    refine ⟨_, CDFH.ofLFH K (LFH.new K fn crc32 size time) newFileMode s.cdoff,
      OpenFileNew_ok K s fn flags size crc32 time handler st hstage hfn habs hst, ?_⟩
    have hlen : (s.cdvec ++ [CDFH.ofLFH K (LFH.new K fn crc32 size time) newFileMode
        s.cdoff]).length - 1 = s.cdvec.length := by simp
    refine ⟨?_, ?_, rfl, rfl, rfl, mapFind_mapSet_self _ _ _,
      fun n hn => mapFind_mapSet_other _ _ _ _ hn, ?_⟩
    · show add64 s.archsize (cast32 _) = _
      rw [cast32_of_lt _ hlfh]; exact add64_of_lt _ _ harch
    · show add64 s.cdoff (cast32 _) = _
      rw [cast32_of_lt _ hlfh]; exact add64_of_lt _ _ hoff
    · show Agree (s.cdvec ++ [CDFH.ofLFH K (LFH.new K fn crc32 size time) newFileMode s.cdoff])
        (mapSet s.cdmap fn _)
      rw [hlen]
      exact Agree_append s.cdvec s.cdmap
        (CDFH.ofLFH K (LFH.new K fn crc32 size time) newFileMode s.cdoff) hagree habs
  · intro st hst
    exact ⟨_, OpenFileNew_failed K s fn flags size crc32 time handler st hstage hfn habs hst,
      rfl, rfl, rfl, rfl⟩

end XrdCl

namespace XrdCl

/-- Witness of C5: `OpenFile( "y", New, 4 )` on `sessX` writes a 31-byte LFH at
offset 100. -/
theorem OpenFile_New_appends_witness :
    sessX.openstage = OpenStages.Done ∧ mapFind sessX.cdmap "y" = none ∧
    (OpenFile zeroCodec sessX "y" OpenFlags.New 4 0 0 true).events =
      [Event.remoteWrite 100 31 (List.replicate 31 0)] :=
  ⟨rfl, rfl,
    (OpenFile_New_appends zeroCodec sessX "y" OpenFlags.New 4 0 0 true rfl rfl
      (by
        intro n i
        rcases i with _ | i
        · simp only [sessX, mapFind]
          by_cases h : "x" = n <;> simp [h]
        · simp only [sessX, mapFind]
          by_cases h : "x" = n <;> simp [h])
      rfl (by decide) (by decide) (by decide)).2.1⟩

/-! ## Write -/

theorem writesOf_append (l1 l2 : List Event) :
    writesOf (l1 ++ l2) = writesOf l1 ++ writesOf l2 := by
  induction l1 with
  | nil => rfl
  | cons e rest ih => cases e <;> simp [writesOf, ih]

theorem writesOf_cons_write (off size : Nat) (data : List Byte) (l : List Event) :
    writesOf (Event.remoteWrite off size data :: l) = (off, size, data) :: writesOf l := rfl

theorem writesOf_notify (h : Bool) (st : XRootDStatus) (c : Option ChunkInfo) :
    writesOf (notify h st c) = [] := by
  cases h <;> simp [notify, writesOf]

/-- One accepted `Write` whose remote write succeeds. -/
theorem WriteRun_ok {σ : Type} (s : Session σ) (size : Nat) (data : List Byte) (handler : Bool)
    (hstage : s.openstage = OpenStages.Done) (hfn : s.openfn ≠ "") :
    WriteRun s size data handler stOK =
      { session := { s with cdoff := add64 s.cdoff size, archsize := add64 s.archsize size,
                            updated := true },
        ret := stOK,
        events := [Event.remoteWrite s.cdoff size data] ++ notify handler stOK none } := by
  unfold WriteRun Write
  have h1 : ¬ (s.openstage ≠ OpenStages.Done ∨ s.openfn = "") := by simp [hstage, hfn]
  rw [if_neg h1]
  simp [WriteDone, stOK]

end XrdCl

namespace XrdCl

theorem totalSize_cons (size : Nat) (data : List Byte) (rest : List (Nat × List Byte)) :
    totalSize ((size, data) :: rest) = size + totalSize rest := by
  simp [totalSize]

/-- C7: for a session in stage Done with an active member, and a sequence of
`Write` calls whose remote writes all succeed (the appended range staying
inside the 64-bit offset space): the k-th write is issued at offset `cdoff`
before the sequence plus the sum of the sizes of the earlier writes, with its
own size and data; afterwards `cdoff` and `archsize` have each grown by the
total number of bytes written, `updated` is true once one write was made, and
every other session field is unchanged. -/
theorem WriteAll_contiguous {σ : Type} (handler : Bool) (ws : List (Nat × List Byte)) :
    ∀ (s : Session σ), s.openstage = OpenStages.Done → s.openfn ≠ "" →
      s.cdoff + totalSize ws < 2 ^ 64 → s.archsize + totalSize ws < 2 ^ 64 →
      (∀ k, (writesOf (WriteAll s handler ws).2)[k]? =
          (ws[k]?).map fun w => (s.cdoff + totalSize (ws.take k), w.1, w.2)) ∧
      (WriteAll s handler ws).1 =
        { s with cdoff := s.cdoff + totalSize ws, archsize := s.archsize + totalSize ws,
                 updated := s.updated || !ws.isEmpty } ∧
      (ws ≠ [] → (WriteAll s handler ws).1.updated = true) := by
  induction ws with
  | nil =>
    intro s _ _ _ _
    refine ⟨fun k => by simp [WriteAll, writesOf], ?_, fun h => absurd rfl h⟩
    simp [WriteAll, totalSize]
  | cons w rest ih =>
    obtain ⟨size, data⟩ := w
    intro s hstage hfn hoff harch
    rw [totalSize_cons] at hoff harch
    have hrun := WriteRun_ok s size data handler hstage hfn
    rw [add64_of_lt _ _ (by omega), add64_of_lt _ _ (by omega)] at hrun
    obtain ⟨ih1, ih2, _⟩ := ih
      { s with cdoff := s.cdoff + size, archsize := s.archsize + size, updated := true }
      hstage hfn (by show s.cdoff + size + totalSize rest < 2 ^ 64; omega)
      (by show s.archsize + size + totalSize rest < 2 ^ 64; omega)
    have hW : WriteAll s handler ((size, data) :: rest) =
        ((WriteAll { s with cdoff := s.cdoff + size, archsize := s.archsize + size,
                            updated := true } handler rest).1,
         Event.remoteWrite s.cdoff size data :: (notify handler stOK none ++
         (WriteAll { s with cdoff := s.cdoff + size, archsize := s.archsize + size,
                            updated := true } handler rest).2)) := by
      simp only [WriteAll, hrun, List.singleton_append, List.cons_append, List.nil_append]
    have hupd : (WriteAll s handler ((size, data) :: rest)).1 =
        { s with cdoff := s.cdoff + totalSize ((size, data) :: rest),
                 archsize := s.archsize + totalSize ((size, data) :: rest),
                 updated := s.updated || !((size, data) :: rest).isEmpty } := by
      rw [hW, ih2, totalSize_cons]
      simp [Nat.add_assoc]
    refine ⟨?_, hupd, fun _ => by rw [hupd]; simp⟩
    intro k
    rw [hW]
    rw [writesOf_cons_write, writesOf_append, writesOf_notify, List.nil_append]
    rcases k with _ | k
    · simp [totalSize]
    · simp only [List.getElem?_cons_succ, List.take_succ_cons, totalSize_cons]
      rw [ih1 k]
      cases rest[k]? <;> simp [Nat.add_assoc]

end XrdCl

namespace XrdCl

/-- Witness of C7: two writes of 3 and 2 bytes on `sessXopen` (`cdoff = 100`) go
to offsets 100 and 103 and leave `cdoff = 105`. -/
theorem WriteAll_contiguous_witness :
    sessXopen.openstage = OpenStages.Done ∧ sessXopen.openfn ≠ "" ∧
    (writesOf (WriteAll sessXopen true [(3, [1, 2, 3]), (2, [4, 5])]).2)[1]? =
      some (103, 2, [4, 5]) ∧
    (WriteAll sessXopen true [(3, [1, 2, 3]), (2, [4, 5])]).1.updated = true :=
  ⟨rfl, by decide,
    (WriteAll_contiguous true [(3, [1, 2, 3]), (2, [4, 5])] sessXopen rfl (by decide)
      (by decide) (by decide)).1 1,
    (WriteAll_contiguous true [(3, [1, 2, 3]), (2, [4, 5])] sessXopen rfl (by decide)
      (by decide) (by decide)).2.2 (by simp)⟩

/-! ## CloseArchive -/

theorem length_SerializeAll (K : Codec) (cdvec : List CDFH)
    (h : ∀ c ∈ cdvec, (K.serCDFH c).length = c.cdfhSize) :
    (CDFH.SerializeAll K cdvec).length = CDFH.CalcSize cdvec := by
  induction cdvec with
  | nil => simp [CDFH.SerializeAll, CDFH.CalcSize]
  | cons c rest ih =>
    have h1 := h c (List.mem_cons_self _ _)
    have h2 := ih (fun c' hc' => h c' (List.mem_cons_of_mem _ hc'))
    simp only [CDFH.SerializeAll, CDFH.CalcSize] at h2 ⊢
    simp [h1, h2]

theorem closeWrtsize_eq (eocd : EOCD) (z : ZIP64_EOCD) :
    closeWrtsize eocd z =
      (eocd.eocdSize + eocd.cdSize +
        (if eocd.useZip64 then z.zip64EocdTotalSize + zip64EocdlSize else 0)) % 2 ^ 32 := by
  unfold closeWrtsize add32
  simp only [Nat.zero_add]
  split_ifs <;> omega

theorem closeImage_length (K : Codec) (cdvec : List CDFH) (cdoff cdsize : Nat) (eocd : EOCD)
    (hc : ∀ c ∈ cdvec, (K.serCDFH c).length = c.cdfhSize)
    (he : (K.serEOCD eocd).length = eocd.eocdSize)
    (hz : (K.serZIP64_EOCD (ZIP64_EOCD.new cdoff cdvec.length cdsize)).length =
      (ZIP64_EOCD.new cdoff cdvec.length cdsize).zip64EocdTotalSize)
    (hl : (K.serZIP64_EOCDL (ZIP64_EOCDL.new eocd
      (ZIP64_EOCD.new cdoff cdvec.length cdsize))).length = zip64EocdlSize) :
    (closeImage K cdvec cdoff cdsize eocd).length =
      CDFH.CalcSize cdvec +
        (if eocd.useZip64 then
          (ZIP64_EOCD.new cdoff cdvec.length cdsize).zip64EocdTotalSize + zip64EocdlSize
         else 0) + eocd.eocdSize := by
  unfold closeImage
  simp only [List.length_append, length_SerializeAll K cdvec hc, he]
  split_ifs
  · simp [hz, hl]; omega
  · simp

/-- The operation `CloseArchive` on an updated session: the pipeline it submits. -/
theorem CloseArchive_updated {σ : Type} (K : Codec) (s : Session σ) (hupd : s.updated = true) :
    (CloseArchive K s).events =
      [Event.remoteWrite s.cdoff
         (closeWrtsize (EOCD.new s.cdoff s.cdvec.length (cast32 (CDFH.CalcSize s.cdvec)))
           (ZIP64_EOCD.new s.cdoff s.cdvec.length (cast32 (CDFH.CalcSize s.cdvec))))
         (closeImage K s.cdvec s.cdoff (cast32 (CDFH.CalcSize s.cdvec))
           (EOCD.new s.cdoff s.cdvec.length (cast32 (CDFH.CalcSize s.cdvec)))),
       Event.remoteClose] := by
  unfold CloseArchive
  rw [if_pos hupd]

end XrdCl

namespace XrdCl

/-- C8 (amended): for every session with `updated == true`, `CloseArchive`
submits exactly one remote write, at offset `cdoff`, followed by the close; its
bytes are the serialization of every CDFH of `cdvec` in order, then the
ZIP64_EOCD and the ZIP64_EOCDL (both present exactly when the EOCD built from
`(cdoff, cdvec.size(), cdsize)` declares `useZip64`), then the EOCD, where
`cdsize` is the sum of the CDFH sizes reduced to 32 bits; when each record
serializes to its declared size, the length passed to the write is the length
of this image modulo `2^32`, hence the length of the image whenever the image is
shorter than `2^32` bytes (and then `cdsize` is the sum itself). -/
theorem CloseArchive_updated_image {σ : Type} (K : Codec) (s : Session σ)
    (hupd : s.updated = true) :
    ∃ wrtsize image,
      (CloseArchive K s).events = [Event.remoteWrite s.cdoff wrtsize image, Event.remoteClose] ∧
      writesOf (CloseArchive K s).events = [(s.cdoff, wrtsize, image)] ∧
      image =
        (s.cdvec.map K.serCDFH).flatten ++
        (if (EOCD.new s.cdoff s.cdvec.length (cast32 (CDFH.CalcSize s.cdvec))).useZip64 then
          K.serZIP64_EOCD
            (ZIP64_EOCD.new s.cdoff s.cdvec.length (cast32 (CDFH.CalcSize s.cdvec))) ++
          K.serZIP64_EOCDL
            (ZIP64_EOCDL.new (EOCD.new s.cdoff s.cdvec.length (cast32 (CDFH.CalcSize s.cdvec)))
              (ZIP64_EOCD.new s.cdoff s.cdvec.length (cast32 (CDFH.CalcSize s.cdvec))))
         else []) ++
        K.serEOCD (EOCD.new s.cdoff s.cdvec.length (cast32 (CDFH.CalcSize s.cdvec))) ∧
      ((∀ c ∈ s.cdvec, (K.serCDFH c).length = c.cdfhSize) →
       (K.serEOCD (EOCD.new s.cdoff s.cdvec.length (cast32 (CDFH.CalcSize s.cdvec)))).length =
          (EOCD.new s.cdoff s.cdvec.length (cast32 (CDFH.CalcSize s.cdvec))).eocdSize →
       (K.serZIP64_EOCD
          (ZIP64_EOCD.new s.cdoff s.cdvec.length (cast32 (CDFH.CalcSize s.cdvec)))).length =
          (ZIP64_EOCD.new s.cdoff s.cdvec.length
            (cast32 (CDFH.CalcSize s.cdvec))).zip64EocdTotalSize →
       (K.serZIP64_EOCDL
          (ZIP64_EOCDL.new (EOCD.new s.cdoff s.cdvec.length (cast32 (CDFH.CalcSize s.cdvec)))
            (ZIP64_EOCD.new s.cdoff s.cdvec.length
              (cast32 (CDFH.CalcSize s.cdvec))))).length = zip64EocdlSize →
        wrtsize = image.length % 2 ^ 32 ∧
        (image.length < 2 ^ 32 →
          wrtsize = image.length ∧
          cast32 (CDFH.CalcSize s.cdvec) = ((s.cdvec.map K.serCDFH).map List.length).sum)) := by
  refine ⟨_, _, CloseArchive_updated K s hupd, ?_, ?_, ?_⟩
  · rw [CloseArchive_updated K s hupd]; rfl
  · unfold closeImage CDFH.SerializeAll
    split_ifs <;> simp
  · intro hc he hz hl
    have hlen := closeImage_length K s.cdvec s.cdoff (cast32 (CDFH.CalcSize s.cdvec))
      (EOCD.new s.cdoff s.cdvec.length (cast32 (CDFH.CalcSize s.cdvec))) hc he hz hl
    have hw := closeWrtsize_eq (EOCD.new s.cdoff s.cdvec.length (cast32 (CDFH.CalcSize s.cdvec)))
      (ZIP64_EOCD.new s.cdoff s.cdvec.length (cast32 (CDFH.CalcSize s.cdvec)))
    have hcd : (EOCD.new s.cdoff s.cdvec.length (cast32 (CDFH.CalcSize s.cdvec))).cdSize =
        cast32 (CDFH.CalcSize s.cdvec) := rfl
    have hsum : ((s.cdvec.map K.serCDFH).map List.length).sum = CDFH.CalcSize s.cdvec := by
      unfold CDFH.CalcSize
      congr 1
      rw [List.map_map]
      exact List.map_congr_left (fun c hcm => hc c hcm)
    rw [hw, hlen, hcd, hsum]
    unfold cast32
    refine ⟨by omega, fun hlt => ⟨by omega, by omega⟩⟩

end XrdCl

namespace XrdCl

/-- Witness of C8 (amended): `CloseArchive` on the updated session
`sessXwritten` submits one write at `cdoff = 100` and the close. -/
theorem CloseArchive_updated_image_witness :
    sessXwritten.updated = true ∧
    ∃ wrtsize image, (CloseArchive zeroCodec sessXwritten).events =
      [Event.remoteWrite 100 wrtsize image, Event.remoteClose] :=
  ⟨rfl, by
    obtain ⟨w, i, h, _⟩ := CloseArchive_updated_image zeroCodec sessXwritten rfl
    exact ⟨w, i, h⟩⟩

theorem CalcSize_map_const (l : List Nat) (f : Nat → CDFH) (c : Nat)
    (h : ∀ i, (f i).cdfhSize = c) : CDFH.CalcSize (l.map f) = l.length * c := by
  induction l with
  | nil => simp [CDFH.CalcSize]
  | cons a r ih =>
    simp only [CDFH.CalcSize, List.map_cons, List.sum_cons, List.length_cons] at ih ⊢
    rw [h a, ih]; ring

theorem sessBig_CalcSize : CDFH.CalcSize sessBig.cdvec = 4587450000 := by
  show CDFH.CalcSize bigCdvec = _
  unfold bigCdvec
  rw [CalcSize_map_const _ _ 65535 (fun _ => rfl), List.length_range]

theorem sessBig_length : sessBig.cdvec.length = 70000 := by
  show bigCdvec.length = _
  unfold bigCdvec
  rw [List.length_map, List.length_range]

/-- Counterexample to C8 as stated: `sessBig` is updated and its 70000 central
directory headers of 65535 bytes each serialize to their declared size; the
byte image has 4587450098 bytes but the length passed to the remote write is
292482802 (the 32-bit `cdsize` wrapped around). -/
theorem CloseArchive_wrtsize_wraps :
    sessBig.updated = true ∧
    (∀ c ∈ sessBig.cdvec, (zeroCodec.serCDFH c).length = c.cdfhSize) ∧
    (writesOf (CloseArchive zeroCodec sessBig).events).map
        (fun w => (w.1, w.2.1, w.2.2.length)) = [(2800000, 292482802, 4587450098)] := by
  refine ⟨rfl, fun c _ => by simp [zeroCodec], ?_⟩
  rw [CloseArchive_updated zeroCodec sessBig rfl]
  simp only [writesOf, List.map_cons, List.map_nil]
  rw [closeImage_length zeroCodec _ _ _ _ (fun c _ => by simp [zeroCodec])
        (by simp [zeroCodec]) (by simp [zeroCodec]) (by simp [zeroCodec]),
      closeWrtsize_eq, sessBig_CalcSize, sessBig_length]
  have hc : sessBig.cdoff = 2800000 := rfl
  rw [hc]
  simp [EOCD.new, ZIP64_EOCD.new, cast32, eocdBaseSize, zip64EocdBaseSize, zip64EocdlSize]

end XrdCl

namespace XrdCl

theorem closesOf_singleton : closesOf [Event.remoteClose] = 1 := rfl

/-- C9: for every session with `updated == false`, `CloseArchive` leaves the
session as it is and submits exactly one remote close and no remote write, so
the bytes of the remote file are unchanged; in the continuation, if the close
succeeded the session is cleared, and if it failed `openstage` becomes `Error`
(nothing else changes). -/
theorem CloseArchive_not_updated {σ : Type} (K : Codec) (s : Session σ) (handler : Bool)
    (file : List Byte) (hupd : s.updated = false) :
    (CloseArchive K s).events = [Event.remoteClose] ∧
    (CloseArchive K s).session = s ∧
    closesOf (CloseArchive K s).events = 1 ∧
    writesOf (CloseArchive K s).events = [] ∧
    applyEvents file (CloseArchive K s).events = file ∧
    (∀ st : XRootDStatus, st.ok = true →
      (CloseArchiveDone (CloseArchive K s).session handler st).session = Clear s) ∧
    (∀ st : XRootDStatus, st.ok = false →
      (CloseArchiveDone (CloseArchive K s).session handler st).session =
        { s with openstage := OpenStages.Error }) := by
  have h : CloseArchive K s = { session := s, ret := stOK, events := [Event.remoteClose] } := by
    unfold CloseArchive
    simp [hupd]
  rw [h]
  refine ⟨rfl, rfl, rfl, rfl, rfl, ?_, ?_⟩
  · intro st hst; simp [CloseArchiveDone, hst]
  · intro st hst; simp [CloseArchiveDone, hst]

/-- Witness of C9: `sessX` has made no write; closing it only closes the remote
file. -/
theorem CloseArchive_not_updated_witness :
    sessX.updated = false ∧ (CloseArchive zeroCodec sessX).events = [Event.remoteClose] ∧
    applyEvents [1, 2, 3] (CloseArchive zeroCodec sessX).events = [1, 2, 3] :=
  ⟨rfl, (CloseArchive_not_updated zeroCodec sessX true [1, 2, 3] rfl).1,
    (CloseArchive_not_updated zeroCodec sessX true [1, 2, 3] rfl).2.2.2.2.1⟩

end XrdCl

namespace XrdCl

/-! ## OpenArchive: the ZIP64 path -/

/-- The read continuation entered in stage `HaveZip64EocdBlk` on a block that
carries the ZIP64 EOCD signature. -/
theorem OpenArchiveRead_HaveZip64EocdBlk {σ : Type} (K : Codec) (s : Session σ) (a : ReadArgs)
    (chunk : Chunk) (hstage : s.openstage = OpenStages.HaveZip64EocdBlk)
    (hsig : K.to32 chunk.data 0 = zip64EocdSign) :
    OpenArchiveRead K s a stOK chunk =
      some { session :=
               { s with zip64eocd := some (K.parseZIP64_EOCD chunk.data 0),
                        cdoff := (K.parseZIP64_EOCD chunk.data 0).cdOffset,
                        buffer := some (List.replicate
                          (cast32 (K.parseZIP64_EOCD chunk.data 0).cdSize) 0),
                        openstage := OpenStages.HaveCdRecords },
             args := ⟨(K.parseZIP64_EOCD chunk.data 0).cdOffset,
                      cast32 (K.parseZIP64_EOCD chunk.data 0).cdSize⟩,
             events := [], flow := Flow.Repeat } := by
  unfold OpenArchiveRead
  simp [interrupted, stOK, hstage, stageHaveZip64EocdBlk, hsig]

/-- The read continuation entered in stage `HaveCdRecords`. -/
theorem OpenArchiveRead_HaveCdRecords {σ : Type} (K : Codec) (s : Session σ) (a : ReadArgs)
    (chunk : Chunk) (hstage : s.openstage = OpenStages.HaveCdRecords) :
    OpenArchiveRead K s a stOK chunk =
      stageHaveCdRecords K { s with buffer := fillBuffer s.buffer chunk.data } a stOK chunk 0 := by
  unfold OpenArchiveRead
  simp [interrupted, stOK, hstage]

/-- The stage `case HaveCdRecords` hands the parser the size and the count of `eocd`. -/
theorem stageHaveCdRecords_parse {σ : Type} (K : Codec) (s : Session σ) (a : ReadArgs)
    (st : XRootDStatus) (chunk : Chunk) (buff : Int) (e : EOCD) (he : s.eocd = some e)
    (hnd : s.openstage ≠ OpenStages.Done) :
    ∃ r, stageHaveCdRecords K s a st chunk buff = some r ∧
      Event.cdParse buff e.cdSize e.nbCdRec ∈ r.events ∧
      (∀ b size nb, Event.cdParse b size nb ∈ r.events → size = e.cdSize ∧ nb = e.nbCdRec) ∧
      (r.session.openstage = OpenStages.Done →
        K.Parse chunk.data buff e.cdSize e.nbCdRec =
          some (r.session.cdvec, r.session.cdmap)) := by
  unfold stageHaveCdRecords
  simp only [he]
  cases hp : K.Parse chunk.data buff e.cdSize e.nbCdRec with
  | none =>
    refine ⟨_, rfl, by simp, ?_, ?_⟩
    · intro b size nb hm
      simp at hm
      exact ⟨hm.2.1, hm.2.2⟩
    · intro hd
      exact absurd hd hnd
  | some p =>
    obtain ⟨v, m⟩ := p
    refine ⟨_, rfl, by simp, ?_, ?_⟩
    · intro b size nb hm
      simp at hm
      exact ⟨hm.2.1, hm.2.2⟩
    · intro _; rfl

/-- C10 (what the code does on the ZIP64 path).  Entered in stage
`HaveZip64EocdBlk` on a block with the ZIP64 EOCD signature, the open machine
populates `zip64eocd`, sets `cdoff` to `zip64eocd.cdOffset` and repeats the read
at `zip64eocd.cdOffset` with length `zip64eocd.cdSize` reduced to 32 bits; on
the chunk of that read it calls the parser with `eocd.cdSize` and
`eocd.nbCdRec`, the fields of the 32-bit EOCD, never with the fields of
`zip64eocd`, and when it ends in stage Done `cdvec` and `cdmap` are what the
parser returned for those arguments. -/
theorem OpenArchive_zip64_parses_with_eocd {σ : Type} (K : Codec) (s : Session σ)
    (a : ReadArgs) (chunk1 chunk2 : Chunk) (e : EOCD)
    (hstage : s.openstage = OpenStages.HaveZip64EocdBlk) (he : s.eocd = some e)
    (hsig : K.to32 chunk1.data 0 = zip64EocdSign) :
    ∃ r1, OpenArchiveRead K s a stOK chunk1 = some r1 ∧
      r1.flow = Flow.Repeat ∧
      r1.session.zip64eocd = some (K.parseZIP64_EOCD chunk1.data 0) ∧
      r1.session.cdoff = (K.parseZIP64_EOCD chunk1.data 0).cdOffset ∧
      r1.args = ⟨(K.parseZIP64_EOCD chunk1.data 0).cdOffset,
                 (K.parseZIP64_EOCD chunk1.data 0).cdSize % 2 ^ 32⟩ ∧
      ∃ r2, OpenArchiveRead K r1.session r1.args stOK chunk2 = some r2 ∧
        Event.cdParse 0 e.cdSize e.nbCdRec ∈ r2.events ∧
        (∀ buff size nb, Event.cdParse buff size nb ∈ r2.events →
          size = e.cdSize ∧ nb = e.nbCdRec) ∧
        (r2.session.openstage = OpenStages.Done →
          K.Parse chunk2.data 0 e.cdSize e.nbCdRec =
            some (r2.session.cdvec, r2.session.cdmap)) := by
  refine ⟨_, OpenArchiveRead_HaveZip64EocdBlk K s a chunk1 hstage hsig, rfl, rfl, rfl, rfl, ?_⟩
  obtain ⟨r2, h1, h2, h3, h4⟩ := stageHaveCdRecords_parse K
    { s with zip64eocd := some (K.parseZIP64_EOCD chunk1.data 0),
             cdoff := (K.parseZIP64_EOCD chunk1.data 0).cdOffset,
             buffer := fillBuffer (some (List.replicate
               (cast32 (K.parseZIP64_EOCD chunk1.data 0).cdSize) 0)) chunk2.data,
             openstage := OpenStages.HaveCdRecords }
    ⟨(K.parseZIP64_EOCD chunk1.data 0).cdOffset, cast32 (K.parseZIP64_EOCD chunk1.data 0).cdSize⟩
    stOK chunk2 0 e he (by simp)
  exact ⟨r2, (OpenArchiveRead_HaveCdRecords K _ _ chunk2 rfl).trans h1, h2, h3, h4⟩

end XrdCl

namespace XrdCl

theorem zipCdvec_length : zipCdvec.length = 65536 := by
  unfold zipCdvec
  rw [List.length_map, List.length_range]

/-- Witness of C10: on the ZIP64 archive read by `zip64Codec` (65536 members,
`zip64eocd.nbCdRec = 65536`, `zip64eocd.cdSize = 3407872`) the parser is called
with the all-ones fields of the 32-bit EOCD, `cdSize = 0xFFFFFFFF` and
`nbCdRec = 0xFFFF`, and the machine ends in stage Done with 65535 members in
`cdvec`: one member of the archive is missing. -/
theorem OpenArchive_zip64_parses_with_eocd_witness :
    sessZip64.openstage = OpenStages.HaveZip64EocdBlk ∧
    sessZip64.eocd = some ⟨0xFFFF, 0xFFFFFFFF, 0xFFFFFFFF, 0, 22, true⟩ ∧
    ∃ r1, OpenArchiveRead zip64Codec sessZip64 ⟨5372116992, 98⟩ stOK
        ⟨5372116992, List.replicate 98 0⟩ = some r1 ∧
      r1.session.zip64eocd = some ⟨65536, 3407872, 5368709120, 56⟩ ∧
      r1.args = ⟨5368709120, 3407872⟩ ∧
      ∃ r2, OpenArchiveRead zip64Codec r1.session r1.args stOK ⟨5368709120, []⟩ = some r2 ∧
        Event.cdParse 0 0xFFFFFFFF 0xFFFF ∈ r2.events ∧
        r2.session.openstage = OpenStages.Done ∧
        r2.session.cdvec.length = 65535 := by
  obtain ⟨r1, h1, _, hz, _, ha, r2, h2, hp, _, hd⟩ :=
    OpenArchive_zip64_parses_with_eocd zip64Codec sessZip64 ⟨5372116992, 98⟩
      ⟨5372116992, List.replicate 98 0⟩ ⟨5368709120, []⟩
      ⟨0xFFFF, 0xFFFFFFFF, 0xFFFFFFFF, 0, 22, true⟩ rfl rfl rfl
  refine ⟨rfl, rfl, r1, h1, hz, ha, r2, h2, hp, ?_⟩
  rw [OpenArchiveRead_HaveZip64EocdBlk zip64Codec sessZip64 _ _ rfl rfl] at h1
  cases h1
  rw [OpenArchiveRead_HaveCdRecords zip64Codec _ _ _ rfl] at h2
  simp only [stageHaveCdRecords, sessZip64, zip64Codec] at h2
  cases h2
  refine ⟨rfl, ?_⟩
  simp [zipCdvec_length]

end XrdCl

namespace XrdCl

/-! ## Refused operations -/

/-- The guards of lines 211, 323 and 512: an operation issued in the wrong state
returns InvalidOp and does nothing else. -/
theorem invalid_state_refused_aux {σ : Type} (K : Codec) (ops : InflCache σ) (s : Session σ) :
    (s.openstage ≠ OpenStages.Done ∨ s.openfn ≠ "" →
      ∀ fn flags size crc32 time handler,
        OpenFile K s fn flags size crc32 time handler =
          { session := s, ret := stError Code.errInvalidOp, events := [] }) ∧
    (s.openstage ≠ OpenStages.Done ∨ s.openfn = "" →
      (∀ relativeOffset size usrHandler,
        Read ops s relativeOffset size usrHandler =
          some { session := s, ret := stError Code.errInvalidOp, events := [] }) ∧
      (∀ size data,
        Write s size data = { session := s, ret := stError Code.errInvalidOp, events := [] })) := by
  refine ⟨?_, ?_⟩
  · intro h fn flags size crc32 time handler
    unfold OpenFile
    rw [if_pos (by rcases h with h | h; exact Or.inr h; exact Or.inl h)]
  · intro h
    refine ⟨?_, ?_⟩
    · intro relativeOffset size usrHandler
      unfold Read
      rw [if_pos h]
    · intro size data
      unfold Write
      rw [if_pos h]

/-- C15: in every session state, `OpenFile` returns InvalidOp when
`openstage != Done` or a member is already active, and `Read` and `Write`
return InvalidOp when `openstage != Done` or no member is active; in each case
the operation makes no call at all (no remote I/O, no handler call) and the
session is unchanged. -/
theorem invalid_state_refused {σ : Type} (K : Codec) (ops : InflCache σ) (s : Session σ) :
    (s.openstage ≠ OpenStages.Done ∨ s.openfn ≠ "" →
      ∀ fn flags size crc32 time handler,
        OpenFile K s fn flags size crc32 time handler =
          { session := s, ret := stError Code.errInvalidOp, events := [] }) ∧
    (s.openstage ≠ OpenStages.Done ∨ s.openfn = "" →
      (∀ relativeOffset size usrHandler,
        Read ops s relativeOffset size usrHandler =
          some { session := s, ret := stError Code.errInvalidOp, events := [] }) ∧
      (∀ size data,
        Write s size data = { session := s, ret := stError Code.errInvalidOp, events := [] }) ∧
      (∀ size data handler st,
        WriteRun s size data handler st =
          { session := s, ret := stError Code.errInvalidOp, events := [] })) := by
  refine ⟨?_, ?_⟩
  · intro h fn flags size crc32 time handler
    unfold OpenFile
    rw [if_pos (by rcases h with h | h; exact Or.inr h; exact Or.inl h)]
  · intro h
    refine ⟨?_, ?_, ?_⟩
    · intro relativeOffset size usrHandler
      unfold Read
      rw [if_pos h]
    · intro size data
      unfold Write
      rw [if_pos h]
    · intro size data handler st
      unfold WriteRun Write
      rw [if_pos h]

/-- Witness of C15: the freshly constructed session (stage `None`, no active
member) refuses `OpenFile`, `Read` and `Write`. -/
theorem invalid_state_refused_witness :
    (Session.init Unit).openstage ≠ OpenStages.Done ∧
    OpenFile zeroCodec (Session.init Unit) "a" OpenFlags.New 1 0 0 true =
      { session := Session.init Unit, ret := stError Code.errInvalidOp, events := [] } ∧
    Read idleCache (Session.init Unit) 0 1 true =
      some { session := Session.init Unit, ret := stError Code.errInvalidOp, events := [] } ∧
    Write (Session.init Unit) 1 [0] =
      { session := Session.init Unit, ret := stError Code.errInvalidOp, events := [] } :=
  ⟨by decide,
   (invalid_state_refused zeroCodec idleCache (Session.init Unit)).1 (Or.inl (by decide))
     "a" OpenFlags.New 1 0 0 true,
   ((invalid_state_refused zeroCodec idleCache (Session.init Unit)).2
     (Or.inl (by decide))).1 0 1 true,
   ((invalid_state_refused zeroCodec idleCache (Session.init Unit)).2
     (Or.inl (by decide))).2.1 1 [0]⟩

/-- C16: for a session in stage Done with an active member present in `cdmap`
(and `cdvec`) whose compression method is neither 0 nor 8, `Read` returns
NotSupported synchronously for every `rel_off` and `size`, making no call at
all (no remote I/O, no copy into the user buffer, no handler call) and leaving
the session, its inflate caches included, unchanged. -/
theorem Read_not_supported {σ : Type} (ops : InflCache σ) (s : Session σ)
    (relativeOffset size idx : Nat) (cdfh : CDFH) (usrHandler : Bool)
    (hstage : s.openstage = OpenStages.Done) (hfn : s.openfn ≠ "")
    (hmap : mapFind s.cdmap s.openfn = some idx) (hvec : s.cdvec[idx]? = some cdfh)
    (hm0 : cdfh.compressionMethod ≠ 0) (hm8 : cdfh.compressionMethod ≠ Z_DEFLATED) :
    Read ops s relativeOffset size usrHandler =
      some { session := s, ret := stError Code.errNotSupported, events := [] } := by
  unfold Read
  have h1 : ¬ (s.openstage ≠ OpenStages.Done ∨ s.openfn = "") := by simp [hstage, hfn]
  rw [if_neg h1]
  simp only [hmap, hvec]
  rw [if_pos ⟨hm0, hm8⟩]

end XrdCl

namespace XrdCl

/-- Witness of C16: the bzip2 member of `sessBzip` is refused. -/
theorem Read_not_supported_witness :
    sessBzip.openstage = OpenStages.Done ∧ mapFind sessBzip.cdmap sessBzip.openfn = some 0 ∧
    Read idleCache sessBzip 0 10 true =
      some { session := sessBzip, ret := stError Code.errNotSupported, events := [] } :=
  ⟨rfl, rfl,
   Read_not_supported idleCache sessBzip 0 10 0 ⟨"b", 12, 69, 500, 0, 47⟩ true
     rfl (by decide) rfl rfl (by decide) (by decide)⟩

end XrdCl

namespace XrdCl

/-! ## OpenArchive on an empty file -/

/-- C12: for a freshly created session, if the remote open succeeds and reports
size 0, `OpenArchive` ends (whatever the read responses would be) with
`openstage == Done`, `cdexists == false`, `cdvec` and `cdmap` empty, the handler
called once, with success, and no remote read issued; an `OpenFile` of any name
that follows (with `New` or any other flags) returns OK and writes the
serialized LFH of the new member at offset 0. -/
theorem OpenArchive_empty_file {σ : Type} (K : Codec)
    (resp : Nat → ReadArgs → XRootDStatus × List Byte) (st : XRootDStatus) (fuel : Nat)
    (hst : st.ok = true) :
    ∃ s' evs, OpenArchive K resp (Session.init σ) st 0 fuel = some (s', evs) ∧
      s'.openstage = OpenStages.Done ∧ s'.cdexists = false ∧ s'.cdvec = [] ∧ s'.cdmap = [] ∧
      s'.archsize = 0 ∧ s'.cdoff = 0 ∧
      evs = [Event.handler stOK none] ∧ handlerCalls evs = [(stOK, none)] ∧ readsOf evs = [] ∧
      ∀ fn flags size crc32 time handler,
        (OpenFile K s' fn flags size crc32 time handler).ret = stOK ∧
        (OpenFile K s' fn flags size crc32 time handler).events =
          [Event.remoteWrite 0 (cast32 (LFH.new K fn crc32 size time).lfhSize)
            (K.serLFH (LFH.new K fn crc32 size time))] := by
  have hO : OpenArchiveOpened (Session.init σ) st 0 =
      { session := { Session.init σ with archsize := 0, cdexists := false,
                                         openstage := OpenStages.Done },
        args := ⟨0, 0⟩, events := [Event.handler stOK none], flow := Flow.Stop stOK } := by
    unfold OpenArchiveOpened
    simp [hst]
  have hrun : OpenArchive K resp (Session.init σ) st 0 fuel =
      some ((OpenArchiveOpened (Session.init σ) st 0).session,
            (OpenArchiveOpened (Session.init σ) st 0).events) := by
    unfold OpenArchive
    rw [hO]
    simp
  rw [hO] at hrun
  refine ⟨_, _, hrun, rfl, rfl, rfl, rfl, rfl, rfl, rfl, rfl, rfl, ?_⟩
  intro fn flags size crc32 time handler
  have h := OpenFile_absent (σ := σ) K
    { Session.init σ with archsize := 0, cdexists := false, openstage := OpenStages.Done }
    fn flags size crc32 time handler rfl rfl rfl
  rw [h]
  exact ⟨rfl, rfl⟩

/-- Witness of C12: the open of an empty file, and `OpenFile( "a.txt", New, 5 )`
after it, which writes the 35-byte LFH at offset 0. -/
theorem OpenArchive_empty_file_witness :
    ∃ s' evs, OpenArchive zeroCodec (fileResp []) (Session.init Unit) stOK 0 3 = some (s', evs) ∧
      s'.openstage = OpenStages.Done ∧ evs = [Event.handler stOK none] ∧
      (OpenFile zeroCodec s' "a.txt" OpenFlags.New 5 0 0 true).events =
        [Event.remoteWrite 0 35 (List.replicate 35 0)] := by
  obtain ⟨s', evs, h, h1, _, _, _, _, _, h2, _, _, h3⟩ :=
    OpenArchive_empty_file (σ := Unit) zeroCodec (fileResp []) stOK 3 rfl
  exact ⟨s', evs, h, h1, h2, (h3 "a.txt" OpenFlags.New 5 0 0 true).2⟩

/-! ## Read: the deflate path -/

/-- C19 (evaluated at the failing input).  In `sessDeflCached` the archive is
cached, the deflate member `d` has no inflate cache entry, and its 69 compressed
bytes start at `fileoff = 31`.  `Read( 5, 10 )` seeds the new cache with
`Input( buffer + 36, 38, 5 )`: the source starts at `fileoff + rel_off`, the
length is `filesize - fileoff = 69 - 31` and the raw offset is `rel_off`, not
`Input( buffer + 31, 69, 0 )`; at `rel_off = 0` the length is still 38. -/
theorem Read_deflate_seed_arguments :
    sessDeflCached.openstage = OpenStages.Done ∧
    mapFind sessDeflCached.inflcache sessDeflCached.openfn = none ∧
    sessDeflCached.buffer.isSome = true ∧
    (Read idleCache sessDeflCached 5 10 true).map (fun r => inputsOf r.events) =
      some [(36, 38, 5)] ∧
    (Read idleCache sessDeflCached 0 10 true).map (fun r => inputsOf r.events) =
      some [(31, 38, 0)] ∧
    (Read idleCache sessDeflCached 5 10 true).map (fun r => r.events) =
      some [Event.cacheInput 36 38 5, Event.cacheOutput 10 5, Event.cacheRead,
            Event.remoteRead 36 10] :=
  ⟨rfl, rfl, rfl, rfl, rfl, rfl⟩

/-- C20 (evaluated at the failing input).  In `sessDeflRemote` the deflate member
`d` has 69 compressed bytes at `[31, 100)` and 500 uncompressed bytes, and no
inflate cache entry.  `Read( 100, 10 )` takes `raw = rel_off = 100`, greater than
`compressedSize`; `filesize - rawOffset` wraps around and the remote read is
issued at offset 131 with length `2^32 - 31`, outside the member's data. -/
theorem Read_deflate_chunk_wraps :
    sessDeflRemote.openstage = OpenStages.Done ∧
    (Read idleCache sessDeflRemote 100 10 true).map (fun r => r.events) =
      some [Event.cacheOutput 10 100, Event.remoteRead 131 4294967265] ∧
    nextChunk 0 100 10 69 = (100, 4294967265) ∧
    ¬ (131 + 4294967265 ≤ 31 + 69) :=
  ⟨rfl, rfl, rfl, by decide⟩

/-- The chunk computed by lines 393-403 when the raw offset is inside the
member: `min(size, filesize - raw)`, without wraparound. -/
theorem nextChunk_inside (next relativeOffset size filesize : Nat)
    (hsize : size < 2 ^ 32) (hfs : filesize + size < 2 ^ 64)
    (hraw : (if next = 0 then relativeOffset else next) ≤ filesize) :
    nextChunk next relativeOffset size filesize =
      (if next = 0 then relativeOffset else next,
       min size (filesize - (if next = 0 then relativeOffset else next))) := by
  unfold nextChunk add64 sub64 cast32
  simp only
  generalize (if next = 0 then relativeOffset else next) = raw at hraw ⊢
  split_ifs <;> simp <;> omega

end XrdCl

namespace XrdCl

/-! ## OpenArchive: the tail read -/

/-- The read continuation entered in stage `HaveEocdBlk` with an OK status. -/
theorem OpenArchiveRead_HaveEocdBlk {σ : Type} (K : Codec) (s : Session σ) (a : ReadArgs)
    (st : XRootDStatus) (chunk : Chunk) (hstage : s.openstage = OpenStages.HaveEocdBlk)
    (hst : st.ok = true) :
    OpenArchiveRead K s a st chunk =
      stageHaveEocdBlk K { s with buffer := fillBuffer s.buffer chunk.data } a st chunk := by
  unfold OpenArchiveRead
  simp [interrupted, hst, hstage]

/-- C11 (what the code does).  In stage `HaveEocdBlk`, on a tail read of
`eocdBaseSize + maxCommentLength + zip64EocdlSize` bytes of a larger archive
whose EOCD record (at index `eb`, with a comment of `commentLength` bytes
ending the archive) is directly preceded by a ZIP64 EOCD locator: when the
comment is shorter than `maxCommentLength` the machine moves to
`HaveZip64EocdlBlk` with `buff` at the locator; when the comment has exactly
`maxCommentLength` bytes the locator is at index 0 of the buffer, the test
`zip64EocdlBlock > buffer.get()` fails, and the machine treats the archive as
non-ZIP64: it sets `cdoff` from the 32-bit EOCD and repeats the read for the
central directory in stage `HaveCdRecords`, leaving `zip64eocd` unset. -/
theorem HaveEocdBlk_locator_at_buffer_start {σ : Type} (K : Codec) (s : Session σ)
    (a : ReadArgs) (chunk : Chunk) (eb commentLength : Nat)
    (hstage : s.openstage = OpenStages.HaveEocdBlk)
    (hlen : chunk.data.length = eocdBaseSize + maxCommentLength + zip64EocdlSize)
    (hbig : s.archsize > eocdBaseSize + maxCommentLength + zip64EocdlSize)
    (hfind : K.Find chunk.data chunk.data.length = some eb)
    (hpos : eb + eocdBaseSize + commentLength = chunk.data.length)
    (hsig : K.to32 chunk.data ((eb : Int) - zip64EocdlSize) = zip64EocdlSign) :
    (commentLength < maxCommentLength →
      OpenArchiveRead K s a stOK chunk =
        stageHaveZip64EocdlBlk K
          { s with buffer := fillBuffer s.buffer chunk.data,
                   eocd := some (K.parseEOCD chunk.data eb),
                   openstage := OpenStages.HaveZip64EocdlBlk } a chunk
          ((eb : Int) - zip64EocdlSize)) ∧
    (commentLength = maxCommentLength →
      (eb : Int) - zip64EocdlSize = 0 ∧
      OpenArchiveRead K s a stOK chunk =
        some { session :=
                 { s with buffer := some (List.replicate
                            (cast32 (K.parseEOCD chunk.data eb).cdSize) 0),
                          eocd := some (K.parseEOCD chunk.data eb),
                          cdoff := (K.parseEOCD chunk.data eb).cdOffset,
                          openstage := OpenStages.HaveCdRecords },
               args := ⟨(K.parseEOCD chunk.data eb).cdOffset,
                        cast32 (K.parseEOCD chunk.data eb).cdSize⟩,
               events := [], flow := Flow.Repeat }) := by
  have hne : ¬ chunk.data.length = s.archsize := by omega
  have hR := OpenArchiveRead_HaveEocdBlk K s a stOK chunk hstage rfl
  simp only [eocdBaseSize, maxCommentLength, zip64EocdlSize] at hlen hpos hsig ⊢
  refine ⟨?_, ?_⟩
  · intro hc
    rw [hR]
    unfold stageHaveEocdBlk
    simp only [hfind, zip64EocdlSize]
    rw [if_neg hne]
    have hgt : ((eb : Int) - (20 : Nat) > 0 ∧
        K.to32 chunk.data ((eb : Int) - (20 : Nat)) = zip64EocdlSign) := by
      refine ⟨by omega, hsig⟩
    rw [if_pos hgt]
  · intro hc
    have heb : eb = 20 := by omega
    subst heb
    refine ⟨by simp, ?_⟩
    rw [hR]
    unfold stageHaveEocdBlk
    simp only [hfind, zip64EocdlSize]
    rw [if_neg hne]
    have hgt : ¬ (((20 : Nat) : Int) - (20 : Nat) > 0 ∧
        K.to32 chunk.data (((20 : Nat) : Int) - (20 : Nat)) = zip64EocdlSign) := by
      intro h; have := h.1; omega
    rw [if_neg hgt]

end XrdCl

namespace XrdCl

theorem tailChunk_length : tailChunk.length = 65577 := by
  unfold tailChunk
  rw [List.length_replicate]

/-- Witness of C11: a ZIP64 archive with a comment of exactly 65535 bytes.  The
locator's signature is at index 0 of the tail read and the EOCD at index 20;
the machine repeats the read at the all-ones offset of the 32-bit EOCD in stage
`HaveCdRecords` and never populates `zip64eocd`. -/
theorem HaveEocdBlk_locator_at_buffer_start_witness :
    sessTail.openstage = OpenStages.HaveEocdBlk ∧ tailChunk.length = 65577 ∧
    commentCodec.to32 tailChunk 0 = zip64EocdlSign ∧
    ∃ r, OpenArchiveRead commentCodec sessTail ⟨5372117048, 65577⟩ stOK
        ⟨5372117048, tailChunk⟩ = some r ∧
      r.flow = Flow.Repeat ∧ r.session.openstage = OpenStages.HaveCdRecords ∧
      r.session.zip64eocd = none ∧ r.args = ⟨0xFFFFFFFF, 0xFFFFFFFF⟩ :=
  ⟨rfl, tailChunk_length, rfl, _,
    ((HaveEocdBlk_locator_at_buffer_start commentCodec sessTail ⟨5372117048, 65577⟩
      ⟨5372117048, tailChunk⟩ 20 65535 rfl tailChunk_length (by decide) rfl
      (by rw [tailChunk_length]; rfl) rfl).2 rfl).2,
    rfl, rfl, rfl, rfl⟩

/-- C13 (what the code does).  For a non-empty archive whose tail read holds no
EOCD record, `OpenArchive` issues the tail read, calls the handler once, with
DataError, and stops without a further read; the session is left in stage
`HaveEocdBlk`, not `Error`; as that stage is not `Done`, `OpenFile`, `Read`,
`Write` and `List` are refused with InvalidOp. -/
theorem OpenArchive_no_EOCD_stage {σ : Type} (K : Codec) (ops : InflCache σ)
    (resp : Nat → ReadArgs → XRootDStatus × List Byte) (s : Session σ) (st : XRootDStatus)
    (size fuel : Nat) (hst : st.ok = true) (hsize : size ≠ 0)
    (hok : (resp 0 (OpenArchiveOpened s st size).args).1.ok = true)
    (hfind : K.Find (resp 0 (OpenArchiveOpened s st size).args).2
      (resp 0 (OpenArchiveOpened s st size).args).2.length = none) :
    ∃ s' evs, OpenArchive K resp s st size (fuel + 1) = some (s', evs) ∧
      evs = [Event.remoteRead (OpenArchiveOpened s st size).args.rdoff
               (OpenArchiveOpened s st size).args.rdsize,
             Event.handler (stError Code.errDataError) none] ∧
      s'.openstage = OpenStages.HaveEocdBlk ∧
      (∀ fn flags sz crc32 time handler,
        (OpenFile K s' fn flags sz crc32 time handler).ret = stError Code.errInvalidOp ∧
        (OpenFile K s' fn flags sz crc32 time handler).events = []) ∧
      (∀ relativeOffset sz usrHandler,
        (Read ops s' relativeOffset sz usrHandler).map (fun r => (r.ret, r.events)) =
          some (stError Code.errInvalidOp, [])) ∧
      (∀ sz data, (Write s' sz data).ret = stError Code.errInvalidOp ∧
        (Write s' sz data).events = []) ∧
      ZipArchive_List s' = (stError Code.errInvalidOp, none) := by
  have hO : OpenArchiveOpened s st size =
      { session := { s with archsize := size,
                            buffer := some (List.replicate
                              (if size ≤ maxrdsz then cast32 size else maxrdsz) 0),
                            openstage := OpenStages.HaveEocdBlk },
        args := ⟨sub64 size (if size ≤ maxrdsz then cast32 size else maxrdsz),
                 if size ≤ maxrdsz then cast32 size else maxrdsz⟩,
        events := [], flow := Flow.Return } := by
    unfold OpenArchiveOpened
    simp [hst, hsize]
  rw [hO] at hok hfind
  simp only at hok hfind
  have hrun : ∃ s', OpenArchive K resp s st size (fuel + 1) =
      some (s', [Event.remoteRead (OpenArchiveOpened s st size).args.rdoff
               (OpenArchiveOpened s st size).args.rdsize,
             Event.handler (stError Code.errDataError) none]) ∧
      s'.openstage = OpenStages.HaveEocdBlk := by
    unfold OpenArchive
    rw [hO]
    simp only [hst, true_and, if_true, OpenArchiveLoop]
    rw [OpenArchiveRead_HaveEocdBlk K _ _ _ _ rfl hok]
    unfold stageHaveEocdBlk
    simp only [hfind]
    exact ⟨_, rfl, rfl⟩
  obtain ⟨s', hs', hstage⟩ := hrun
  have hnd : s'.openstage ≠ OpenStages.Done := by rw [hstage]; decide
  refine ⟨s', _, hs', rfl, hstage, ?_, ?_, ?_, ?_⟩
  · intro fn flags sz crc32 time handler
    rw [(invalid_state_refused_aux K ops s').1 (Or.inl hnd)]
    exact ⟨rfl, rfl⟩
  · intro relativeOffset sz usrHandler
    rw [((invalid_state_refused_aux K ops s').2 (Or.inl hnd)).1]
    rfl
  · intro sz data
    rw [((invalid_state_refused_aux K ops s').2 (Or.inl hnd)).2]
    exact ⟨rfl, rfl⟩
  · unfold ZipArchive_List
    rw [if_pos hnd]

end XrdCl

namespace XrdCl

/-! ## OpenArchive: stages and reads -/

theorem readsOf_append (l1 l2 : List Event) :
    readsOf (l1 ++ l2) = readsOf l1 ++ readsOf l2 := by
  induction l1 with
  | nil => rfl
  | cons e rest ih => cases e <;> simp [readsOf, ih]

/-- One run of the read continuation: it returns, never moves the stage back,
issues no read itself, and leaves through `Repeat` only towards a later stage
from which fewer reads remain. -/
theorem OpenArchiveRead_step {σ : Type} (K : Codec) (s : Session σ) (a : ReadArgs)
    (st : XRootDStatus) (chunk : Chunk) (hpre : eocdParsed s) :
    ∃ r, OpenArchiveRead K s a st chunk = some r ∧
      stageRank s.openstage ≤ stageRank r.session.openstage ∧
      readsOf r.events = [] ∧
      (r.flow = Flow.Repeat →
        eocdParsed r.session ∧ readsLeft r.session.openstage < readsLeft s.openstage) := by
  unfold OpenArchiveRead
  by_cases hi : interrupted st = true
  · simp [hi, readsOf]
  by_cases hok : st.ok = true
  swap
  · simp [hi, hok, readsOf]
  simp only [hi, hok, Bool.not_true, if_false, Bool.false_eq_true]
  cases hs : s.openstage with
  | None => simp [readsOf]
  | Done => simp [readsOf]
  | Error => simp [readsOf]
  | HaveCdRecords =>
    have he : s.eocd.isSome = true := by
      rcases hpre with h | h | h | h | h
      · rw [hs] at h; cases h
      · rw [hs] at h; cases h
      · rw [hs] at h; cases h
      · rw [hs] at h; cases h
      · exact h
    obtain ⟨e, he'⟩ := Option.isSome_iff_exists.1 he
    simp only [stageHaveCdRecords, he']
    cases K.Parse chunk.data 0 e.cdSize e.nbCdRec with
    | none => simp [readsOf, hs, stageRank]
    | some p => simp [readsOf, stageRank]
  | HaveZip64EocdBlk =>
    simp only [stageHaveZip64EocdBlk]
    split_ifs <;> simp [readsOf, hs, stageRank, readsLeft, eocdParsed]
    rcases hpre with h | h | h | h | h
    · rw [hs] at h; cases h
    · rw [hs] at h; cases h
    · rw [hs] at h; cases h
    · rw [hs] at h; cases h
    · exact h
  | HaveZip64EocdlBlk =>
    simp only [stageHaveZip64EocdlBlk, stageHaveZip64EocdBlk]
    split_ifs <;> simp [readsOf, hs, stageRank, readsLeft, eocdParsed]
    all_goals
      rcases hpre with h | h | h | h | h
      · rw [hs] at h; cases h
      · rw [hs] at h; cases h
      · rw [hs] at h; cases h
      · rw [hs] at h; cases h
      · exact h
  | HaveEocdBlk =>
    simp only [stageHaveEocdBlk]
    cases K.Find chunk.data chunk.data.length with
    | none => simp [readsOf, hs, stageRank]
    | some eb =>
      simp only []
      by_cases hw : chunk.data.length = s.archsize
      · rw [if_pos hw]
        simp only [stageHaveCdRecords]
        split <;> simp [readsOf, stageRank]
      · rw [if_neg hw]
        simp only [stageHaveZip64EocdlBlk, stageHaveZip64EocdBlk]
        split_ifs <;> simp [readsOf, stageRank, readsLeft, eocdParsed]

end XrdCl

namespace XrdCl

theorem readsLeft_pos (g : OpenStages) : 1 ≤ readsLeft g := by
  cases g <;> simp [readsLeft]

/-- The read stage of the open pipeline, run from a session in which `eocd` is
parsed when the stage needs it: with as much fuel as reads remain it ends, after
at most that many reads, in a stage that is not earlier. -/
theorem OpenArchiveLoop_bounded {σ : Type} (K : Codec)
    (resp : Nat → ReadArgs → XRootDStatus × List Byte) :
    ∀ (fuel n : Nat) (s : Session σ) (a : ReadArgs), eocdParsed s →
      readsLeft s.openstage ≤ fuel →
      ∃ p, OpenArchiveLoop K resp fuel n s a = some p ∧
        (readsOf p.2).length ≤ readsLeft s.openstage ∧
        stageRank s.openstage ≤ stageRank p.1.openstage := by
  intro fuel
  induction fuel with
  | zero =>
    intro n s a _ hf
    have := readsLeft_pos s.openstage
    omega
  | succ fuel ih =>
    intro n s a hpre hf
    obtain ⟨r, hr, hrank, hreads, hrep⟩ :=
      OpenArchiveRead_step K s a (resp n a).1 ⟨a.rdoff, (resp n a).2⟩ hpre
    have hpos := readsLeft_pos s.openstage
    unfold OpenArchiveLoop
    simp only [hr]
    cases hflow : r.flow with
    | Repeat =>
      obtain ⟨hpre', hlt⟩ := hrep hflow
      obtain ⟨p, hp, hlen, hrk⟩ := ih (n + 1) r.session r.args hpre' (by omega)
      refine ⟨(p.1, Event.remoteRead a.rdoff a.rdsize :: (r.events ++ p.2)),
        by simp only [hp, Option.map_some'], ?_, ?_⟩
      · simp only [readsOf, readsOf_append, hreads, List.nil_append, List.length_cons]
        omega
      · exact le_trans hrank hrk
    | Return =>
      refine ⟨_, rfl, ?_, hrank⟩
      simp only [readsOf, hreads, List.length_cons, List.length_nil]
      omega
    | Stop e =>
      refine ⟨_, rfl, ?_, hrank⟩
      simp only [readsOf, hreads, List.length_cons, List.length_nil]
      omega

/-- C17: for every archive and every sequence of remote responses, an
invocation of the read continuation (in a session where `eocd` is parsed when
the stage needs it, which holds at every invocation of a run) returns, does
not move the stage back in the order `HaveEocdBlk`, `HaveZip64EocdlBlk`,
`HaveZip64EocdBlk`, `HaveCdRecords`, `Done`, and repeats the read only towards a
stage from which fewer reads remain; a complete `OpenArchive` ends and issues
at most three remote reads. -/
theorem OpenArchive_at_most_three_reads {σ : Type} (K : Codec)
    (resp : Nat → ReadArgs → XRootDStatus × List Byte) (s : Session σ) (st : XRootDStatus)
    (size fuel : Nat) (hfuel : 3 ≤ fuel) :
    (∀ (s0 : Session σ) a st0 chunk, eocdParsed s0 →
      ∃ r, OpenArchiveRead K s0 a st0 chunk = some r ∧
        stageRank s0.openstage ≤ stageRank r.session.openstage ∧
        (r.flow = Flow.Repeat →
          eocdParsed r.session ∧ readsLeft r.session.openstage < readsLeft s0.openstage)) ∧
    (st.ok = true → size ≠ 0 →
      (OpenArchiveOpened s st size).session.openstage = OpenStages.HaveEocdBlk) ∧
    ∃ p, OpenArchive K resp s st size fuel = some p ∧ (readsOf p.2).length ≤ 3 := by
  refine ⟨?_, ?_, ?_⟩
  · intro s0 a st0 chunk hpre
    obtain ⟨r, h1, h2, _, h4⟩ := OpenArchiveRead_step K s0 a st0 chunk hpre
    exact ⟨r, h1, h2, h4⟩
  · intro hok hz
    unfold OpenArchiveOpened
    simp [hok, hz]
  · unfold OpenArchive
    by_cases hc : st.ok = true ∧ (OpenArchiveOpened s st size).flow = Flow.Return
    · rw [if_pos hc]
      have hstage : (OpenArchiveOpened s st size).session.openstage = OpenStages.HaveEocdBlk ∧
          (OpenArchiveOpened s st size).events = [] := by
        obtain ⟨hok, hflow⟩ := hc
        unfold OpenArchiveOpened at hflow ⊢
        by_cases hz : size = 0
        · simp [hok, hz] at hflow
        · simp [hok, hz]
      obtain ⟨p, hp, hlen, _⟩ := OpenArchiveLoop_bounded K resp fuel 0
        (OpenArchiveOpened s st size).session (OpenArchiveOpened s st size).args
        (Or.inl hstage.1) (by rw [hstage.1]; simpa [readsLeft] using hfuel)
      refine ⟨(p.1, (OpenArchiveOpened s st size).events ++ p.2),
        by simp only [hp, Option.map_some'], ?_⟩
      rw [hstage.1] at hlen
      simpa [hstage.2, readsLeft] using hlen
    · rw [if_neg hc]
      refine ⟨_, rfl, ?_⟩
      unfold OpenArchiveOpened
      split_ifs <;> simp [readsOf]

/-- Witness of C17: the open of a 3-byte file without an EOCD record ends after
one read. -/
theorem OpenArchive_at_most_three_reads_witness :
    ∃ p, OpenArchive zeroCodec (fileResp [1, 2, 3]) (Session.init Unit) stOK 3 3 = some p ∧
      (readsOf p.2).length ≤ 3 :=
  (OpenArchive_at_most_three_reads zeroCodec (fileResp [1, 2, 3]) (Session.init Unit) stOK 3 3
    (le_refl 3)).2.2

end XrdCl

namespace XrdCl

/-! ## OpenArchive: what holds at the end -/

/-- Invariant rule for the read stage of the open pipeline: a property kept by
every repeated read and giving `Post` when the continuation leaves otherwise
holds of the final session. -/
theorem OpenArchiveLoop_inv {σ : Type} (K : Codec)
    (resp : Nat → ReadArgs → XRootDStatus × List Byte)
    (Inv : Nat → Session σ → ReadArgs → Prop) (Post : Session σ → Prop)
    (hstep : ∀ n s a r, Inv n s a →
      OpenArchiveRead K s a (resp n a).1 ⟨a.rdoff, (resp n a).2⟩ = some r →
      (r.flow = Flow.Repeat → Inv (n + 1) r.session r.args) ∧
      (r.flow ≠ Flow.Repeat → Post r.session)) :
    ∀ (fuel n : Nat) (s : Session σ) (a : ReadArgs) (p : Session σ × List Event),
      Inv n s a → OpenArchiveLoop K resp fuel n s a = some p → Post p.1 := by
  intro fuel
  induction fuel with
  | zero =>
    intro n s a p _ h
    simp [OpenArchiveLoop] at h
  | succ fuel ih =>
    intro n s a p hinv h
    unfold OpenArchiveLoop at h
    cases hr : OpenArchiveRead K s a (resp n a).1 ⟨a.rdoff, (resp n a).2⟩ with
    | none => simp [hr] at h
    | some r =>
      simp only [hr] at h
      obtain ⟨h1, h2⟩ := hstep n s a r hinv hr
      cases hflow : r.flow with
      | Repeat =>
        simp only [hflow] at h
        cases hl : OpenArchiveLoop K resp fuel (n + 1) r.session r.args with
        | none => simp [hl] at h
        | some q =>
          simp only [hl, Option.map_some', Option.some.injEq] at h
          have := ih (n + 1) r.session r.args q (h1 hflow) hl
          rw [← h]
          exact this
      | Return =>
        simp only [hflow, Option.some.injEq] at h
        rw [← h]
        exact h2 (by rw [hflow]; simp)
      | Stop e =>
        simp only [hflow, Option.some.injEq] at h
        rw [← h]
        exact h2 (by rw [hflow]; simp)

end XrdCl

namespace XrdCl

/-- One read of the open pipeline keeps `openInv`, and when the continuation
leaves in stage Done the central-directory offset agrees with the trailer
records. -/
theorem openInv_step {σ : Type} (K : Codec)
    (resp : Nat → ReadArgs → XRootDStatus × List Byte) (size : Nat) (a0 : ReadArgs)
    (n : Nat) (s : Session σ) (a : ReadArgs) (r : OpenStep σ)
    (hinv : openInv (locatorFound K size (resp 0 a0).2) size a0 n s a)
    (hr : OpenArchiveRead K s a (resp n a).1 ⟨a.rdoff, (resp n a).2⟩ = some r) :
    (r.flow = Flow.Repeat →
      openInv (locatorFound K size (resp 0 a0).2) size a0 (n + 1) r.session r.args) ∧
    (r.flow ≠ Flow.Repeat →
      (r.session.openstage = OpenStages.Done →
        cdoffAgrees (locatorFound K size (resp 0 a0).2) r.session)) := by
  unfold OpenArchiveRead at hr
  by_cases hi : interrupted (resp n a).1 = true
  · simp only [hi, if_true, Option.some.injEq] at hr
    subst hr
    refine ⟨by simp, fun _ hd => ?_⟩
    rcases hinv with h | h | h <;> (simp only at hd; rw [h.2.1] at hd; cases hd)
  by_cases hok : (resp n a).1.ok = true
  swap
  · simp only [hi, hok, Bool.not_false, if_true, Bool.false_eq_true, if_false,
      Option.some.injEq] at hr
    subst hr
    refine ⟨by simp, fun _ hd => ?_⟩
    rcases hinv with h | h | h <;> (simp only at hd; rw [h.2.1] at hd; cases hd)
  simp only [hi, hok, Bool.not_true, if_false, Bool.false_eq_true] at hr
  rcases hinv with ⟨hn, hs, hz, harch, ha⟩ | ⟨hn, hs, hz, he, hZ⟩ | ⟨hn, hs, hag⟩
  · subst hn; subst ha
    simp only [hs, stageHaveEocdBlk] at hr
    cases hf : K.Find (resp 0 a).2 (resp 0 a).2.length with
    | none =>
      simp only [hf, Option.some.injEq] at hr
      subst hr
      exact ⟨by simp, fun _ hd => by simp at hd⟩
    | some eb =>
      simp only [hf] at hr
      by_cases hw : (resp 0 a).2.length = s.archsize
      · rw [if_pos hw] at hr
        simp only [stageHaveCdRecords] at hr
        split at hr
        · simp only [Option.some.injEq] at hr
          subst hr
          exact ⟨by simp, fun _ hd => by simp at hd⟩
        · simp only [Option.some.injEq] at hr
          subst hr
          refine ⟨by simp, fun _ _ => Or.inl ⟨hz, _, rfl, rfl⟩⟩
      · rw [if_neg hw] at hr
        by_cases hl : ((eb : Int) - zip64EocdlSize > 0 ∧
            K.to32 (resp 0 a).2 ((eb : Int) - zip64EocdlSize) = zip64EocdlSign)
        · have hZ : locatorFound K size (resp 0 a).2 :=
            ⟨by rw [← harch]; exact hw, eb, hf, hl.1, hl.2⟩
          rw [if_pos hl] at hr
          simp only [stageHaveZip64EocdlBlk, stageHaveZip64EocdBlk] at hr
          split_ifs at hr
          all_goals simp only [Option.some.injEq] at hr
          all_goals subst hr
          · refine ⟨fun _ => Or.inr (Or.inl ⟨by simp, rfl, hz, rfl, hZ⟩), by simp⟩
          · exact ⟨by simp, fun _ hd => by simp at hd⟩
          · refine ⟨fun _ => Or.inr (Or.inr ⟨by simp, rfl, Or.inr ⟨_, rfl, rfl, rfl, hZ⟩⟩),
              by simp⟩
        · rw [if_neg hl] at hr
          simp only [Option.some.injEq] at hr
          subst hr
          refine ⟨fun _ => Or.inr (Or.inr ⟨by simp, rfl, Or.inl ⟨hz, _, rfl, rfl⟩⟩), by simp⟩
  · simp only [hs, stageHaveZip64EocdBlk] at hr
    split_ifs at hr
    all_goals simp only [Option.some.injEq] at hr
    all_goals subst hr
    · exact ⟨by simp, fun _ hd => by simp at hd⟩
    · refine ⟨fun _ => Or.inr (Or.inr ⟨by simp, rfl, Or.inr ⟨_, rfl, rfl, he, hZ⟩⟩), by simp⟩
  · simp only [hs, stageHaveCdRecords] at hr
    have hsome : ∃ e, s.eocd = some e := by
      rcases hag with ⟨_, e, he, _⟩ | ⟨z, _, _, he, _⟩
      · exact ⟨e, he⟩
      · exact Option.isSome_iff_exists.1 he
    obtain ⟨e, he⟩ := hsome
    simp only [he] at hr
    split at hr
    · simp only [Option.some.injEq] at hr
      subst hr
      exact ⟨by simp, fun _ hd => by simp at hd⟩
    · simp only [Option.some.injEq] at hr
      subst hr
      refine ⟨by simp, fun _ _ => ?_⟩
      rcases hag with ⟨hz, e', he', hc⟩ | ⟨z, hz, hc, _, hZ⟩
      · exact Or.inl ⟨hz, e', (by show some e = some e'; rw [← he, he']), hc⟩
      · exact Or.inr ⟨z, hz, hc, rfl, hZ⟩

end XrdCl

namespace XrdCl

/-- The continuation of a successful remote open of a non-empty file. -/
theorem OpenArchiveOpened_nonempty {σ : Type} (s : Session σ) (st : XRootDStatus) (size : Nat)
    (hst : st.ok = true) (hsize : size ≠ 0) :
    OpenArchiveOpened s st size =
      { session := { s with archsize := size,
                            buffer := some (List.replicate
                              (if size ≤ maxrdsz then cast32 size else maxrdsz) 0),
                            openstage := OpenStages.HaveEocdBlk },
        args := ⟨sub64 size (if size ≤ maxrdsz then cast32 size else maxrdsz),
                 if size ≤ maxrdsz then cast32 size else maxrdsz⟩,
        events := [], flow := Flow.Return } := by
  unfold OpenArchiveOpened
  simp [hst, hsize]

/-- A complete open of a non-empty file is the run of its read stage. -/
theorem OpenArchive_nonempty {σ : Type} (K : Codec)
    (resp : Nat → ReadArgs → XRootDStatus × List Byte) (s : Session σ) (st : XRootDStatus)
    (size fuel : Nat) (p : Session σ × List Event) (hst : st.ok = true) (hsize : size ≠ 0)
    (hrun : OpenArchive K resp s st size fuel = some p) :
    ∃ q, OpenArchiveLoop K resp fuel 0 (OpenArchiveOpened s st size).session
        (OpenArchiveOpened s st size).args = some q ∧ p = (q.1, q.2) := by
  unfold OpenArchive at hrun
  have hflow : (OpenArchiveOpened s st size).flow = Flow.Return := by
    rw [OpenArchiveOpened_nonempty s st size hst hsize]
  have hev : (OpenArchiveOpened s st size).events = [] := by
    rw [OpenArchiveOpened_nonempty s st size hst hsize]
  rw [if_pos ⟨hst, hflow⟩, hev] at hrun
  cases hl : OpenArchiveLoop K resp fuel 0 (OpenArchiveOpened s st size).session
      (OpenArchiveOpened s st size).args with
  | none => simp [hl] at hrun
  | some q =>
    simp only [hl, Option.map_some', Option.some.injEq, List.nil_append] at hrun
    exact ⟨q, rfl, hrun.symm⟩

/-- C22: for every non-empty archive on which `OpenArchive`, started on a session
whose `zip64eocd` is unset (a fresh or cleared session), reaches stage Done,
whatever the path taken: the offset `Read` takes as the start of the central
directory (`zip64eocd.cdOffset` when `zip64eocd` is populated, otherwise
`eocd.cdOffset`) is `cdoff`; and `zip64eocd` is populated only when the tail
read did not cover the archive and the EOCD found in it was preceded by the
ZIP64 locator signature (the ZIP64 path). -/
theorem OpenArchive_cdoff_agrees {σ : Type} (K : Codec)
    (resp : Nat → ReadArgs → XRootDStatus × List Byte) (s : Session σ) (st : XRootDStatus)
    (size fuel : Nat) (p : Session σ × List Event)
    (hz : s.zip64eocd = none) (hst : st.ok = true) (hsize : size ≠ 0)
    (hrun : OpenArchive K resp s st size fuel = some p)
    (hdone : p.1.openstage = OpenStages.Done) :
    cdOffsetOf p.1 = some p.1.cdoff ∧
    (∀ z, p.1.zip64eocd = some z → p.1.cdoff = z.cdOffset) ∧
    (p.1.zip64eocd = none → ∃ e, p.1.eocd = some e ∧ p.1.cdoff = e.cdOffset) ∧
    (p.1.zip64eocd.isSome = true →
      locatorFound K size (resp 0 (OpenArchiveOpened s st size).args).2) := by
  obtain ⟨q, hq, hp⟩ := OpenArchive_nonempty K resp s st size fuel p hst hsize hrun
  have hinv0 : openInv (locatorFound K size (resp 0 (OpenArchiveOpened s st size).args).2) size
      (OpenArchiveOpened s st size).args 0 (OpenArchiveOpened s st size).session
      (OpenArchiveOpened s st size).args := by
    rw [OpenArchiveOpened_nonempty s st size hst hsize]
    exact Or.inl ⟨rfl, rfl, hz, rfl, rfl⟩
  have hpost := OpenArchiveLoop_inv K resp
    (openInv (locatorFound K size (resp 0 (OpenArchiveOpened s st size).args).2) size
      (OpenArchiveOpened s st size).args)
    (fun s' => s'.openstage = OpenStages.Done →
      cdoffAgrees (locatorFound K size (resp 0 (OpenArchiveOpened s st size).args).2) s')
    (fun n s1 a1 r hi hr => openInv_step K resp size _ n s1 a1 r hi hr)
    fuel 0 _ _ q hinv0 hq
  have hp1 : p.1 = q.1 := by rw [hp]
  rw [hp1] at hdone ⊢
  rcases hpost hdone with ⟨hzn, e, he, hc⟩ | ⟨z, hzs, hc, _, hZ⟩
  · refine ⟨?_, ?_, ?_, ?_⟩
    · unfold cdOffsetOf
      rw [hzn, he, hc]
    · intro z hzs
      rw [hzn] at hzs
      cases hzs
    · intro _
      exact ⟨e, he, hc⟩
    · intro h
      rw [hzn] at h
      cases h
  · refine ⟨?_, ?_, ?_, ?_⟩
    · unfold cdOffsetOf
      rw [hzs, hc]
    · intro z' hz'
      rw [hzs] at hz'
      cases hz'
      exact hc
    · intro h
      rw [hzs] at h
      cases h
    · intro _
      exact hZ

end XrdCl

namespace XrdCl

/-- Witness of C22: the open of an archive without members, 22 bytes read in one
tail read, ends in stage Done with `cdoff` the offset `Read` would use. -/
theorem OpenArchive_cdoff_agrees_witness :
    ∃ p, OpenArchive findCodec (fileResp emptyZip) (Session.init Unit) stOK 22 3 = some p ∧
      p.1.openstage = OpenStages.Done ∧ cdOffsetOf p.1 = some p.1.cdoff :=
  ⟨_, rfl, rfl,
    (OpenArchive_cdoff_agrees findCodec (fileResp emptyZip) (Session.init Unit) stOK 22 3 _
      rfl rfl (by decide) rfl rfl).1⟩

/-- Witness of C13: the open of a 3-byte file without an EOCD record. -/
theorem OpenArchive_no_EOCD_stage_witness :
    ∃ s' evs, OpenArchive zeroCodec (fileResp [1, 2, 3]) (Session.init Unit) stOK 3 1 =
        some (s', evs) ∧
      evs = [Event.remoteRead 0 3, Event.handler (stError Code.errDataError) none] ∧
      s'.openstage = OpenStages.HaveEocdBlk ∧
      ZipArchive_List s' = (stError Code.errInvalidOp, none) :=
  let ⟨s', evs, h1, h2, h3, _, _, _, h7⟩ :=
    OpenArchive_no_EOCD_stage zeroCodec idleCache (fileResp [1, 2, 3]) (Session.init Unit) stOK
      3 0 rfl (by decide) rfl rfl
  ⟨s', evs, h1, h2, h3, h7⟩

end XrdCl

namespace XrdCl

/-! ## Failed writes -/

/-- C14 (what the code does).  For a session in stage Done and a failed status
`st`: a `Write` whose remote write fails calls the handler and leaves the
session as it was, in stage Done, and the next `Write` issues a remote write
again; an `OpenFile` of an absent name whose LFH write fails leaves the stage
Done too, the name staying active, and the next `Write` issues a remote write;
only the continuation of the remote close of `CloseArchive` sets the stage to
`Error`, after which `OpenFile`, `Read`, `Write` and `List` are refused without
I/O. -/
theorem failed_write_leaves_stage_Done {σ : Type} (K : Codec) (ops : InflCache σ)
    (s : Session σ) (handler : Bool) (st : XRootDStatus)
    (hstage : s.openstage = OpenStages.Done) (hst : st.ok = false) :
    (s.openfn ≠ "" → ∀ size data,
      (WriteRun s size data handler st).session = s ∧
      (WriteRun s size data handler st).events =
        Event.remoteWrite s.cdoff size data :: notify handler st none ∧
      ∀ size2 data2, (Write (WriteRun s size data handler st).session size2 data2).events =
        [Event.remoteWrite s.cdoff size2 data2]) ∧
    (s.openfn = "" → ∀ fn flags size crc32 time, fn ≠ "" → mapFind s.cdmap fn = none →
      ∃ r, OpenFileNew K s fn flags size crc32 time handler st = some r ∧
        r.session.openstage = OpenStages.Done ∧
        r.events = Event.remoteWrite s.cdoff (cast32 (LFH.new K fn crc32 size time).lfhSize)
          (K.serLFH (LFH.new K fn crc32 size time)) :: notify handler st none ∧
        ∀ size2 data2, (Write r.session size2 data2).events =
          [Event.remoteWrite s.cdoff size2 data2]) ∧
    ((CloseArchiveDone s handler st).session.openstage = OpenStages.Error ∧
      (CloseArchiveDone s handler st).events = notify handler st none ∧
      (∀ fn flags size crc32 time h,
        OpenFile K (CloseArchiveDone s handler st).session fn flags size crc32 time h =
          { session := (CloseArchiveDone s handler st).session,
            ret := stError Code.errInvalidOp, events := [] }) ∧
      (∀ relativeOffset size usrHandler,
        Read ops (CloseArchiveDone s handler st).session relativeOffset size usrHandler =
          some { session := (CloseArchiveDone s handler st).session,
                 ret := stError Code.errInvalidOp, events := [] }) ∧
      (∀ size data,
        Write (CloseArchiveDone s handler st).session size data =
          { session := (CloseArchiveDone s handler st).session,
            ret := stError Code.errInvalidOp, events := [] }) ∧
      ZipArchive_List (CloseArchiveDone s handler st).session =
        (stError Code.errInvalidOp, none)) := by
  refine ⟨?_, ?_, ?_⟩
  · intro hfn size data
    have hg : ¬ (s.openstage ≠ OpenStages.Done ∨ s.openfn = "") := by simp [hstage, hfn]
    have hW : ∀ size2 data2, Write s size2 data2 =
        { session := s, ret := stOK, events := [Event.remoteWrite s.cdoff size2 data2] } := by
      intro size2 data2
      unfold Write
      rw [if_neg hg]
    have hR : WriteRun s size data handler st =
        { session := s, ret := stOK,
          events := Event.remoteWrite s.cdoff size data :: notify handler st none } := by
      unfold WriteRun
      rw [hW]
      simp [WriteDone, hst]
    rw [hR]
    refine ⟨rfl, rfl, ?_⟩
    intro size2 data2
    show (Write s size2 data2).events = _
    rw [hW]
  · intro hfn fn flags size crc32 time hne habs
    refine ⟨_, OpenFileNew_failed K s fn flags size crc32 time handler st hstage hfn habs hst,
      hstage, rfl, ?_⟩
    intro size2 data2
    unfold Write
    rw [if_neg (by simp [hstage, hne])]
  · have hE : (CloseArchiveDone s handler st).session.openstage = OpenStages.Error := by
      unfold CloseArchiveDone
      simp [hst]
    have hnd : (CloseArchiveDone s handler st).session.openstage ≠ OpenStages.Done := by
      rw [hE]; decide
    refine ⟨hE, rfl, ?_, ?_, ?_, ?_⟩
    · exact (invalid_state_refused_aux K ops _).1 (Or.inl hnd)
    · exact ((invalid_state_refused_aux K ops _).2 (Or.inl hnd)).1
    · exact ((invalid_state_refused_aux K ops _).2 (Or.inl hnd)).2
    · unfold ZipArchive_List
      rw [if_pos hnd]

/-- Witness of C14: on `sessXopen` a `Write` of 5 bytes whose remote write fails
leaves the stage Done, and a second `Write` is issued at the same offset. -/
theorem failed_write_leaves_stage_Done_witness :
    sessXopen.openstage = OpenStages.Done ∧
    (WriteRun sessXopen 5 hello true (stError (Code.errOther 1))).session.openstage =
      OpenStages.Done ∧
    (WriteRun sessXopen 5 hello true (stError (Code.errOther 1))).events =
      [Event.remoteWrite 100 5 hello, Event.handler (stError (Code.errOther 1)) none] ∧
    (Write (WriteRun sessXopen 5 hello true (stError (Code.errOther 1))).session 5 hello).events =
      [Event.remoteWrite 100 5 hello] :=
  ⟨rfl, rfl,
   (((failed_write_leaves_stage_Done zeroCodec idleCache sessXopen true
      (stError (Code.errOther 1)) rfl rfl).1 (by decide)) 5 hello).2.1,
   (((failed_write_leaves_stage_Done zeroCodec idleCache sessXopen true
      (stError (Code.errOther 1)) rfl rfl).1 (by decide)) 5 hello).2.2 5 hello⟩

/-! ## Read: the continuation of the chunk read -/

/-- C21 (what the code does).  The continuation of the remote read of a
compressed chunk, when the remote read, the cache's `Input` and the cache's
`Read` succeed: whatever number of bytes the cache's `Read` stored in
`bytesRead` and whatever success code it returned (`suDone` or not), the handler
is called once, with an OK status and a chunk of the full requested length
`size`; `bytesRead` and the code are not looked at. -/
theorem ReadDeflateDone_reports_requested_size {σ : Type} (ops : InflCache σ) (s : Session σ)
    (relativeOffset size rawOffset : Nat) (st : XRootDStatus) (data : List Byte)
    (hst : st.ok = true)
    (hin : (ops.Input ((mapFind s.inflcache s.openfn).getD ops.init) data 0 data.length
      rawOffset).1.ok = true)
    (hrd : (ops.Read (ops.Input ((mapFind s.inflcache s.openfn).getD ops.init) data 0
      data.length rawOffset).2).1.ok = true) :
    (ReadDeflateDone ops s relativeOffset size rawOffset true st data).events =
      [Event.cacheInput 0 data.length rawOffset, Event.cacheRead,
       Event.handler stOK (some ⟨relativeOffset, size⟩)] ∧
    handlerCalls (ReadDeflateDone ops s relativeOffset size rawOffset true st data).events =
      [(stOK, some ⟨relativeOffset, size⟩)] := by
  have h : (ReadDeflateDone ops s relativeOffset size rawOffset true st data).events =
      [Event.cacheInput 0 data.length rawOffset, Event.cacheRead,
       Event.handler stOK (some ⟨relativeOffset, size⟩)] := by
    unfold ReadDeflateDone
    simp [hst, hin, hrd, notify]
  rw [h]
  exact ⟨rfl, rfl⟩

/-- Witness of C21: the cache `idleCache` decodes nothing (`bytesRead` is 0 and the
code is not `suDone`), and the handler is told that 10 bytes were delivered. -/
theorem ReadDeflateDone_reports_requested_size_witness :
    (idleCache.Read ()).2.1 = 0 ∧ (idleCache.Read ()).1.code ≠ Code.suDone ∧
    handlerCalls (ReadDeflateDone idleCache sessDeflRemote 0 10 0 true stOK
      (List.replicate 10 7)).events = [(stOK, some ⟨0, 10⟩)] :=
  ⟨rfl, by decide,
   (ReadDeflateDone_reports_requested_size idleCache sessDeflRemote 0 10 0 stOK
     (List.replicate 10 7) rfl rfl rfl).2⟩

/-! ## OpenArchive: the region handed to the parser -/

/-- C23 (what the code does).  In stage `HaveEocdBlk`, when the chunk covers the
whole archive and an EOCD record is found in it, the read continuation calls
the central-directory parser at buffer index `eocd.cdOffset` with the size
`eocd.cdSize` and the count `eocd.nbCdRec`, as the record declares them: no
comparison with `archsize` or with the chunk length is made before the call. -/
theorem HaveEocdBlk_whole_archive_parse_unchecked {σ : Type} (K : Codec) (s : Session σ)
    (a : ReadArgs) (st : XRootDStatus) (chunk : Chunk) (eb : Nat)
    (hstage : s.openstage = OpenStages.HaveEocdBlk) (hst : st.ok = true)
    (hlen : chunk.data.length = s.archsize)
    (hfind : K.Find chunk.data chunk.data.length = some eb) :
    ∃ r, OpenArchiveRead K s a st chunk = some r ∧
      r.events.head? =
        some (Event.cdParse ((K.parseEOCD chunk.data eb).cdOffset : Nat)
          (K.parseEOCD chunk.data eb).cdSize (K.parseEOCD chunk.data eb).nbCdRec) := by
  rw [OpenArchiveRead_HaveEocdBlk K s a st chunk hstage hst]
  unfold stageHaveEocdBlk
  simp only [hfind]
  rw [if_pos hlen]
  unfold stageHaveCdRecords
  simp only
  split
  · exact ⟨_, rfl, rfl⟩
  · exact ⟨_, rfl, rfl⟩

/-- Witness of C23: an archive of 22 bytes whose EOCD record declares a central
directory of 5000 bytes at offset 1000; the parser is called at index 1000 of
the 22-byte buffer with size 5000. -/
theorem HaveEocdBlk_whole_archive_parse_unchecked_witness :
    sess22.archsize = 22 ∧ emptyZip.length = 22 ∧
    ∃ r, OpenArchiveRead wildCodec sess22 ⟨0, 22⟩ stOK ⟨0, emptyZip⟩ = some r ∧
      r.events.head? = some (Event.cdParse 1000 5000 1) ∧ ¬ (1000 + 5000 ≤ sess22.archsize) :=
  ⟨rfl, rfl,
   let ⟨r, h1, h2⟩ := HaveEocdBlk_whole_archive_parse_unchecked wildCodec sess22 ⟨0, 22⟩ stOK
     ⟨0, emptyZip⟩ 0 rfl rfl rfl rfl
   ⟨r, h1, h2, by decide⟩⟩

end XrdCl

namespace XrdCl

/-! ## OpenArchive: the retained buffer -/

theorem maxrdsz_eq : maxrdsz = 65577 := by decide

theorem remoteBytes_full (file : List Byte) (off len : Nat) (hpos : file ≠ [])
    (h : (remoteBytes file off len).length = file.length) :
    off = 0 ∧ remoteBytes file off len = file := by
  unfold remoteBytes at h ⊢
  rw [List.length_take, List.length_drop] at h
  have hl : 0 < file.length := List.length_pos.2 hpos
  have h0 : off = 0 := by omega
  subst h0
  refine ⟨rfl, ?_⟩
  rw [List.drop_zero]
  exact List.take_of_length_le (by simp at h; omega)

theorem fillBuffer_take (data : List Byte) (n : Nat) (b : List Byte)
    (h : fillBuffer (some (List.replicate n 0)) data = some b) :
    b.take data.length = data := by
  unfold fillBuffer at h
  simp only [Option.map_some', Option.some.injEq] at h
  rw [← h]
  exact List.take_left' rfl

theorem fillBuffer_exact (data : List Byte) :
    fillBuffer (some (List.replicate data.length 0)) data = some data := by
  unfold fillBuffer
  simp

/-- One read of the open pipeline on the archive `file` keeps `keepInv`, and
gives `keepPost` when the continuation leaves otherwise. -/
theorem keepInv_step {σ : Type} (K : Codec) (file : List Byte) (a0 : ReadArgs)
    (n : Nat) (s : Session σ) (a : ReadArgs) (r : OpenStep σ)
    (hpos : file ≠ [])
    (hwhole : file.length ≤ maxrdsz → a0 = ⟨0, file.length⟩)
    (hbig : maxrdsz < file.length →
      (remoteBytes file a0.rdoff a0.rdsize).length ≠ file.length)
    (hinv : keepInv file.length a0 n s a)
    (hr : OpenArchiveRead K s a (fileResp file n a).1 ⟨a.rdoff, (fileResp file n a).2⟩ =
      some r) :
    (r.flow = Flow.Repeat → keepInv file.length a0 (n + 1) r.session r.args) ∧
    (r.flow ≠ Flow.Repeat → keepPost file r.session) := by
  have h1 : (fileResp file n a).1 = stOK := rfl
  have h2 : (fileResp file n a).2 = remoteBytes file a.rdoff a.rdsize := rfl
  rw [h1, h2] at hr
  unfold OpenArchiveRead at hr
  have hi : interrupted stOK = false := rfl
  have hok : stOK.ok = true := rfl
  simp only [hi, hok, Bool.not_true, if_false, Bool.false_eq_true] at hr
  obtain ⟨harch, hcase⟩ := hinv
  rcases hcase with ⟨hn, hs, ha, hb⟩ | ⟨hn, hgt, hs⟩ | ⟨hn, hgt, hs, hc, hb⟩
  · subst hn; subst ha
    simp only [hs, stageHaveEocdBlk] at hr
    cases hf : K.Find (remoteBytes file a.rdoff a.rdsize)
        (remoteBytes file a.rdoff a.rdsize).length with
    | none =>
      simp only [hf, Option.some.injEq] at hr
      subst hr
      refine ⟨by simp, fun _ hd => ?_⟩
      simp only [hs] at hd
      cases hd
    | some eb =>
      simp only [hf] at hr
      by_cases hw : (remoteBytes file a.rdoff a.rdsize).length = s.archsize
      · rw [if_pos hw] at hr
        have hle : file.length ≤ maxrdsz := by
          by_contra hcon
          exact hbig (by omega) (by rw [hw, harch])
        have ha := hwhole hle
        subst ha
        have hdata : remoteBytes file 0 file.length = file :=
          (remoteBytes_full file 0 file.length hpos (by rw [hw, harch])).2
        simp only [stageHaveCdRecords] at hr
        split at hr
        · simp only [Option.some.injEq] at hr
          subst hr
          refine ⟨by simp, fun _ hd => ?_⟩
          simp at hd
        · simp only [Option.some.injEq] at hr
          subst hr
          refine ⟨by simp, fun _ _ => ⟨fun _ => ?_, fun hgt => by omega⟩⟩
          simp only [hb, hdata]
          rw [if_neg (not_not.2 harch.symm)]
          exact fillBuffer_exact file
      · rw [if_neg hw] at hr
        have hgt : maxrdsz < file.length := by
          by_contra hcon
          have ha := hwhole (by omega)
          subst ha
          apply hw
          rw [harch]
          simp [remoteBytes]
        by_cases hl : ((eb : Int) - zip64EocdlSize > 0 ∧
            K.to32 (remoteBytes file a.rdoff a.rdsize) ((eb : Int) - zip64EocdlSize) =
              zip64EocdlSign)
        · rw [if_pos hl] at hr
          simp only [stageHaveZip64EocdlBlk, stageHaveZip64EocdBlk] at hr
          split_ifs at hr
          all_goals simp only [Option.some.injEq] at hr
          all_goals subst hr
          · refine ⟨fun _ => ⟨harch, Or.inr (Or.inl ⟨by simp, hgt, rfl⟩)⟩, by simp⟩
          · exact ⟨by simp, fun _ hd => by simp at hd⟩
          · refine ⟨fun _ => ⟨harch, Or.inr (Or.inr ⟨by simp, hgt, rfl, rfl, rfl⟩)⟩, by simp⟩
        · rw [if_neg hl] at hr
          simp only [Option.some.injEq] at hr
          subst hr
          refine ⟨fun _ => ⟨harch, Or.inr (Or.inr ⟨by simp, hgt, rfl, rfl, rfl⟩)⟩, by simp⟩
  · simp only [hs, stageHaveZip64EocdBlk] at hr
    split_ifs at hr
    all_goals simp only [Option.some.injEq] at hr
    all_goals subst hr
    · refine ⟨by simp, fun _ hd => ?_⟩
      simp only [hs] at hd
      cases hd
    · refine ⟨fun _ => ⟨harch, Or.inr (Or.inr ⟨by simp, hgt, rfl, rfl, rfl⟩)⟩, by simp⟩
  · simp only [hs, stageHaveCdRecords] at hr
    split at hr
    · cases hr
    · split at hr
      · simp only [Option.some.injEq] at hr
        subst hr
        refine ⟨by simp, fun _ hd => ?_⟩
        simp only [hs] at hd
        cases hd
      · simp only [Option.some.injEq] at hr
        subst hr
        refine ⟨by simp, fun _ _ => ⟨fun hle => by omega, fun _ b hbuf => ?_⟩⟩
        simp only at hbuf
        by_cases hw : (remoteBytes file a.rdoff a.rdsize).length = s.archsize
        · rw [if_neg (by simpa using hw), hb] at hbuf
          rw [harch] at hw
          obtain ⟨hoff, hdata⟩ := remoteBytes_full file a.rdoff a.rdsize hpos hw
          refine ⟨?_, ?_⟩
          · have := fillBuffer_take _ _ _ hbuf
            rw [hdata] at this
            exact this
          · show s.cdoff = 0
            rw [hc, hoff]
        · rw [if_pos (by simpa using hw)] at hbuf
          cases hbuf

/-- C18 (amended): for every non-empty archive `file` (shorter than `2^64`
bytes, its reads answered with the bytes of the file) on which `OpenArchive`
reaches stage Done: if the tail read covered the entire archive
(`archsize <= eocdBaseSize + maxCommentLength + zip64EocdlSize`), `buffer` is
retained and holds exactly the archive bytes; otherwise `buffer` is dropped
whenever the central directory does not start at offset 0, and when it is
retained `cdoff` is 0 and the buffer starts with the whole archive (the last
read, at offset 0, returned `archsize` bytes). -/
theorem OpenArchive_buffer_retained {σ : Type} (K : Codec) (file : List Byte) (s : Session σ)
    (st : XRootDStatus) (fuel : Nat) (p : Session σ × List Event)
    (hst : st.ok = true) (hpos : file ≠ []) (hlt : file.length < 2 ^ 64)
    (hrun : OpenArchive K (fileResp file) s st file.length fuel = some p)
    (hdone : p.1.openstage = OpenStages.Done) :
    (file.length ≤ eocdBaseSize + maxCommentLength + zip64EocdlSize →
      p.1.buffer = some file) ∧
    (eocdBaseSize + maxCommentLength + zip64EocdlSize < file.length →
      (p.1.cdoff ≠ 0 → p.1.buffer = none) ∧
      ∀ b, p.1.buffer = some b → b.take file.length = file ∧ p.1.cdoff = 0) := by
  have hsize : file.length ≠ 0 := by
    intro h
    exact hpos (List.length_eq_zero.1 h)
  obtain ⟨q, hq, hp⟩ := OpenArchive_nonempty K (fileResp file) s st file.length fuel p hst hsize hrun
  have hp1 : p.1 = q.1 := by rw [hp]
  rw [hp1] at hdone ⊢
  have hO := OpenArchiveOpened_nonempty s st file.length hst hsize
  have hwhole : file.length ≤ maxrdsz →
      (OpenArchiveOpened s st file.length).args = ⟨0, file.length⟩ := by
    intro hle
    rw [hO]
    simp only [if_pos hle]
    have hm := maxrdsz_eq
    have hc : cast32 file.length = file.length := cast32_of_lt _ (by omega)
    rw [hc]
    have hs0 : sub64 file.length file.length = 0 := by
      rw [sub64_of_le _ _ hlt (le_refl _)]
      omega
    rw [hs0]
  have hbig : maxrdsz < file.length →
      (remoteBytes file (OpenArchiveOpened s st file.length).args.rdoff
        (OpenArchiveOpened s st file.length).args.rdsize).length ≠ file.length := by
    intro hgt
    rw [hO]
    simp only [if_neg (not_le.2 hgt)]
    have hm := maxrdsz_eq
    rw [sub64_of_le _ _ hlt (by omega)]
    unfold remoteBytes
    rw [List.length_take, List.length_drop]
    omega
  have hinv0 : keepInv file.length (OpenArchiveOpened s st file.length).args 0
      (OpenArchiveOpened s st file.length).session (OpenArchiveOpened s st file.length).args := by
    rw [hO]
    exact ⟨rfl, Or.inl ⟨rfl, rfl, rfl, rfl⟩⟩
  have hpost := OpenArchiveLoop_inv K (fileResp file)
    (keepInv file.length (OpenArchiveOpened s st file.length).args) (keepPost file)
    (fun n s1 a1 r hi hr => keepInv_step K file _ n s1 a1 r hpos hwhole hbig hi hr)
    fuel 0 _ _ q hinv0 hq
  have hm := maxrdsz_eq
  obtain ⟨hA, hB⟩ := hpost hdone
  simp only [eocdBaseSize, maxCommentLength, zip64EocdlSize]
  refine ⟨fun hle => hA (by omega), fun hgt => ⟨fun hne => ?_, fun b hb => hB (by omega) b hb⟩⟩
  cases hbuf : q.1.buffer with
  | none => rfl
  | some b => exact absurd (hB (by omega) b hbuf).2 hne

/-- The tail read of an archive larger than the buffer, read by `lyingCodec`:
the read is repeated at offset 0 for the declared central directory. -/
theorem lyingCodec_tail {σ : Type} (N : Nat) (s : Session σ) (a : ReadArgs) (chunk : Chunk)
    (hstage : s.openstage = OpenStages.HaveEocdBlk) (hne : chunk.data.length ≠ s.archsize) :
    OpenArchiveRead (lyingCodec N) s a stOK chunk =
      some { session := { s with buffer := some (List.replicate (cast32 N) 0),
                                 eocd := some ⟨0, N, 0, 0, eocdBaseSize, false⟩, cdoff := 0,
                                 openstage := OpenStages.HaveCdRecords },
             args := ⟨0, cast32 N⟩, events := [], flow := Flow.Repeat } := by
  rw [OpenArchiveRead_HaveEocdBlk _ _ _ _ _ hstage rfl]
  unfold stageHaveEocdBlk
  have hF : (lyingCodec N).Find chunk.data chunk.data.length =
      some (chunk.data.length - eocdBaseSize) := rfl
  have hT : ∀ i, (lyingCodec N).to32 chunk.data i = 0 := fun _ => rfl
  simp only [hF, hT]
  rw [if_neg hne, if_neg (by intro h; exact absurd h.2 (by decide))]
  rfl

/-- The read of the central directory declared by `lyingCodec`: the directory is
accepted and the buffer is kept when the chunk has `archsize` bytes. -/
theorem lyingCodec_cd {σ : Type} (N : Nat) (s : Session σ) (a : ReadArgs) (chunk : Chunk)
    (e : EOCD) (hstage : s.openstage = OpenStages.HaveCdRecords) (he : s.eocd = some e) :
    OpenArchiveRead (lyingCodec N) s a stOK chunk =
      some { session := { s with cdvec := [], cdmap := [], openstage := OpenStages.Done,
                                 buffer := if chunk.data.length ≠ s.archsize then none
                                           else fillBuffer s.buffer chunk.data },
             args := a,
             events := [Event.cdParse 0 e.cdSize e.nbCdRec, Event.handler stOK none],
             flow := Flow.Return } := by
  rw [OpenArchiveRead_HaveCdRecords _ _ _ _ hstage]
  unfold stageHaveCdRecords
  simp only [he]
  rfl

/-- The read stage of the open of the archive `file`, read by `lyingCodec`, when
the tail read does not cover the archive: two reads, the second one of the
whole archive, and the buffer is kept. -/
theorem lyingCodec_loop {σ : Type} (file : List Byte) (fuel : Nat) (s : Session σ)
    (a : ReadArgs) (hstage : s.openstage = OpenStages.HaveEocdBlk)
    (harch : s.archsize = file.length)
    (hne : (remoteBytes file a.rdoff a.rdsize).length ≠ file.length)
    (hlt : file.length < 2 ^ 32) :
    ∃ p, OpenArchiveLoop (lyingCodec file.length) (fileResp file) (fuel + 2) 0 s a = some p ∧
      p.1.openstage = OpenStages.Done ∧ p.1.buffer.isSome = true ∧
      readsOf p.2 = [(a.rdoff, a.rdsize), (0, file.length)] := by
  have hdata : remoteBytes file 0 file.length = file := by
    unfold remoteBytes
    simp
  have hc : cast32 file.length = file.length := cast32_of_lt _ hlt
  have hR1 : fileResp file 0 a = (stOK, remoteBytes file a.rdoff a.rdsize) := rfl
  have hR2 : fileResp file 1 ⟨0, file.length⟩ = (stOK, file) := by
    show (stOK, remoteBytes file 0 file.length) = (stOK, file)
    rw [hdata]
  unfold OpenArchiveLoop
  simp only [hR1]
  rw [lyingCodec_tail file.length s a _ hstage (by rw [harch]; exact hne)]
  simp only [hc]
  unfold OpenArchiveLoop
  simp only [hR2, Nat.zero_add]
  rw [lyingCodec_cd file.length _ _ _ _ rfl rfl]
  simp only [Option.map_some']
  refine ⟨_, rfl, rfl, ?_, ?_⟩
  · simp only [harch, ne_eq, not_true_eq_false, if_false, fillBuffer, Option.map_some',
      Option.isSome_some]
  · simp only [readsOf, List.nil_append]

/-- The open of an archive larger than the cap of the tail read, read by
`lyingCodec`: two reads, the second one of the whole archive, and the buffer is
kept. -/
theorem lying_trailer_run (file : List Byte) (hgt : maxrdsz < file.length)
    (hlt : file.length < 2 ^ 32) :
    ∃ p, OpenArchive (lyingCodec file.length) (fileResp file) (Session.init Unit) stOK
        file.length 3 = some p ∧
      p.1.openstage = OpenStages.Done ∧ p.1.buffer.isSome = true ∧
      readsOf p.2 = [(file.length - 65577, 65577), (0, file.length)] := by
  have hm := maxrdsz_eq
  have hsize : file.length ≠ 0 := by omega
  have hO := OpenArchiveOpened_nonempty (Session.init Unit) stOK file.length rfl hsize
  simp only [if_neg (not_le.2 hgt)] at hO
  have hoff : sub64 file.length maxrdsz = file.length - 65577 := by
    rw [sub64_of_le _ _ (by omega) (by omega), hm]
  have hlen0 : (remoteBytes file (file.length - 65577) maxrdsz).length ≠ file.length := by
    unfold remoteBytes
    rw [List.length_take, List.length_drop]
    omega
  rw [hoff] at hO
  obtain ⟨p, hp, h1, h2, h3⟩ := lyingCodec_loop file 1
    (OpenArchiveOpened (Session.init Unit) stOK file.length).session
    (OpenArchiveOpened (Session.init Unit) stOK file.length).args
    (by rw [hO]) (by rw [hO]) (by rw [hO]; exact hlen0) hlt
  have hflow : (OpenArchiveOpened (Session.init Unit) stOK file.length).flow = Flow.Return := by
    rw [hO]
  have hev : (OpenArchiveOpened (Session.init Unit) stOK file.length).events = [] := by
    rw [hO]
  refine ⟨p, ?_, h1, h2, ?_⟩
  · unfold OpenArchive
    rw [if_pos ⟨rfl, hflow⟩, hp, hev]
    rfl
  · rw [h3, hO, hm]

theorem bigFile_length : bigFile.length = 70000 := by
  unfold bigFile
  rw [List.length_replicate]

/-- Counterexample of C18: an archive of 70000 bytes, more than the cap of 65577,
whose EOCD record declares an empty central directory of 70000 bytes at offset
0.  The tail read does not cover the archive; the second read, at offset 0,
returns 70000 bytes, as many as `archsize`, and the buffer is retained. -/
theorem OpenArchive_second_read_keeps_buffer :
    ¬ (bigFile.length ≤ eocdBaseSize + maxCommentLength + zip64EocdlSize) ∧
    ∃ p, OpenArchive (lyingCodec 70000) (fileResp bigFile) (Session.init Unit) stOK 70000 3 =
        some p ∧
      p.1.openstage = OpenStages.Done ∧ readsOf p.2 = [(4423, 65577), (0, 70000)] ∧
      p.1.buffer.isSome = true := by
  have h := lying_trailer_run bigFile (by rw [bigFile_length, maxrdsz_eq]; decide)
    (by rw [bigFile_length]; decide)
  rw [bigFile_length] at h
  obtain ⟨p, h1, h2, h3, h4⟩ := h
  refine ⟨by rw [bigFile_length]; decide, p, h1, h2, h4, h3⟩

/-- Witness of C18: the archive without members, 22 bytes, is read whole by the
tail read and retained. -/
theorem OpenArchive_buffer_retained_witness :
    ∃ p, OpenArchive findCodec (fileResp emptyZip) (Session.init Unit) stOK emptyZip.length 3 =
        some p ∧
      p.1.openstage = OpenStages.Done ∧ p.1.buffer = some emptyZip :=
  ⟨_, rfl, rfl,
    (OpenArchive_buffer_retained findCodec emptyZip (Session.init Unit) stOK 3 _ rfl
      (by decide) (by decide) rfl rfl).1 (by decide)⟩

end XrdCl
